import Mathlib

/-! MPU6050-ChibiOS: register access layer and quaternion helper.

A shallow embedding of `i2cdev_chibi/i2cdev_chibi.c` and `MPU6050/helper_3dmath.h`.

* C buffers reached through a pointer are functions `Nat → Nat` (index to cell).
* `uint8_t` / `uint16_t` values are naturals; every assignment that can truncate
  carries an explicit `% 256` / `% 65536`.
* `int` is 32 bits wide, so `~m` for a promoted unsigned `m` is the bit pattern
  `2 ^ 32 - 1 - m`.
* The ChibiOS I2C driver is a parameter (`Hal`), threaded as explicit state.
* `float` arithmetic is read over `ℚ`.
-/

namespace I2Cdev

/-! ## Constants -/

/-- Macro `I2CDEV_DEFAULT_READ_TIMEOUT` of `i2cdev_chibi.h`. -/
def I2CDEV_DEFAULT_READ_TIMEOUT : Nat := 1000

/-- Macro `I2CDEV_BUFFER_LENGTH` of `i2cdev_chibi.h`. -/
def I2CDEV_BUFFER_LENGTH : Nat := 64

/-- ChibiOS `TRUE`. -/
def TRUE : Nat := 1

/-- ChibiOS `FALSE`. -/
def FALSE : Nat := 0

/-- ChibiOS `msg_t` value `RDY_OK`. -/
def RDY_OK : Int := 0

/-- ChibiOS `msg_t` value `RDY_TIMEOUT`. -/
def RDY_TIMEOUT : Int := -1

/-- ChibiOS `msg_t` value `RDY_RESET`. -/
def RDY_RESET : Int := -2

/-! ## The driver interface -/

/-- A C array seen through a pointer: index to cell content. -/
abbrev Mem := Nat → Nat

/-- The ChibiOS collaborators the library calls, over a driver state `σ`.
`i2cMasterTransmitTimeout s addr tx rxbuf rxbytes timeout` receives the first
`txbytes` cells of the transmit buffer as the list `tx`, the receive buffer as it
is before the call, and the timeout (`none` for the untimed `i2cMasterTransmit`);
it returns the `msg_t` status, the receive buffer as it is after the call and the
next driver state.  `chprintf` is the diagnostic sink. -/
structure Hal (σ : Type) where
  i2cAcquireBus : σ → σ
  i2cReleaseBus : σ → σ
  i2cMasterTransmitTimeout : σ → Nat → List Nat → Mem → Nat → Option Nat → Int × Mem × σ
  chprintf : σ → σ

/-! ## Field arithmetic shared by the bit-field readers and writers -/

/-- The C expression `bitStart - length + 1`, for `length ≤ bitStart + 1`
(outside that range the C shift count is negative). -/
def fieldShift (bitStart length : Nat) : Nat := bitStart + 1 - length

/-- The C `int` expression `((1 << length) - 1) << (bitStart - length + 1)`. -/
def fieldMask (bitStart length : Nat) : Nat :=
  ((1 <<< length) - 1) <<< fieldShift bitStart length

/-- The C `int` expression `~m` for an unsigned operand promoted to a 32-bit `int`,
as a bit pattern. -/
def bitNot32 (m : Nat) : Nat := 2 ^ 32 - 1 - m

/-! ## Multi-unit transfers -/

variable {σ : Type}

/-- Function `I2CdevreadBytes`: returns the status, the caller's buffer and the driver state. -/
def I2CdevreadBytes (hal : Hal σ) (s : σ) (devAddr regAddr length : Nat) (data : Mem)
    (timeout : Nat) : Nat × Mem × σ :=
  if length > I2CDEV_BUFFER_LENGTH then
    (FALSE, data, hal.chprintf s)
  else
    let s1 := hal.i2cAcquireBus s
    let r := hal.i2cMasterTransmitTimeout s1 devAddr [regAddr] data length (some timeout)
    let s2 := hal.i2cReleaseBus r.2.2
    if r.1 = RDY_TIMEOUT ∨ r.1 = RDY_RESET then
      (FALSE, r.2.1, hal.chprintf s2)
    else
      (TRUE, r.2.1, s2)

/-- The loop `for(i=0;i<(length * 2);i++) mpu_rxbuf[i] = 0x00;` of `I2CdevreadWords`,
from counter value `i`, with `i` a `uint8_t`. -/
def readWordsClear (length : Nat) : Nat → Nat → Mem → Mem
  | 0, _, rxbuf => rxbuf
  | fuel + 1, i, rxbuf =>
    if i < length * 2 then
      readWordsClear length fuel ((i + 1) % 256) (Function.update rxbuf i 0)
    else rxbuf

/-- The loop `for(i=0;i<length * 2;i += 2) data[i] = (mpu_rxbuf[i] << 8) + mpu_rxbuf[i+1];`
of `I2CdevreadWords`, from counter value `i`, with `i` a `uint8_t` and `data` an
array of `uint16_t`. -/
def readWordsAssemble (length : Nat) (rxbuf : Mem) : Nat → Nat → Mem → Mem
  | 0, _, data => data
  | fuel + 1, i, data =>
    if i < length * 2 then
      readWordsAssemble length rxbuf fuel ((i + 2) % 256)
        (Function.update data i (((rxbuf i <<< 8) + rxbuf (i + 1)) % 65536))
    else data

/-- Function `I2CdevreadWords`: returns the status, the caller's word buffer and the driver
state.  The local `mpu_rxbuf` starts as zeros (the code clears every cell it
hands to the driver).  Both
loops run after the size guard, so their bound is at most `I2CDEV_BUFFER_LENGTH`
and that many steps exhaust them. -/
def I2CdevreadWords (hal : Hal σ) (s : σ) (devAddr regAddr length : Nat) (data : Mem)
    (timeout : Nat) : Nat × Mem × σ :=
  if length * 2 > I2CDEV_BUFFER_LENGTH then
    (FALSE, data, s)
  else
    let mpu_txbuf : List Nat := [regAddr]
    let mpu_rxbuf := readWordsClear length (I2CDEV_BUFFER_LENGTH + 1) 0 (fun _ => 0)
    let s1 := hal.i2cAcquireBus s
    let r := hal.i2cMasterTransmitTimeout s1 devAddr mpu_txbuf mpu_rxbuf (length * 2)
      (some timeout)
    let s2 := hal.i2cReleaseBus r.2.2
    if r.1 = RDY_TIMEOUT ∨ r.1 = RDY_RESET then
      (FALSE, data, s2)
    else
      (TRUE, readWordsAssemble length r.2.1 (I2CDEV_BUFFER_LENGTH + 1) 0 data, s2)

/-- Function `I2CdevwriteBytes`: `mpu_txbuf[0] = regAddr` followed by the `memcpy` of
`length` cells of `data`; the driver gets the first `length + 1` cells. -/
def I2CdevwriteBytes (hal : Hal σ) (s : σ) (devAddr regAddr length : Nat) (data : Mem) :
    Nat × σ :=
  if length + 1 > I2CDEV_BUFFER_LENGTH then
    (FALSE, hal.chprintf s)
  else
    let mpu_txbuf : List Nat := regAddr :: (List.range length).map data
    let s1 := hal.i2cAcquireBus s
    let r := hal.i2cMasterTransmitTimeout s1 devAddr mpu_txbuf (fun _ => 0) 0 none
    let s2 := hal.i2cReleaseBus r.2.2
    if r.1 = RDY_TIMEOUT ∨ r.1 = RDY_RESET then (FALSE, s2) else (TRUE, s2)

/-- The loop of `I2CdevwriteWords`,
`for(i=0;i<(length*2); i += 2) { mpu_txbuf[i+1] = (data[i] >> 8) & 0xff;
mpu_txbuf[i+2] = data[i] & 0xff; }`, from counter value `i`, with `i` a `uint8_t`. -/
def writeWordsSplit (length : Nat) (data : Mem) : Nat → Nat → Mem → Mem
  | 0, _, txbuf => txbuf
  | fuel + 1, i, txbuf =>
    if i < length * 2 then
      writeWordsSplit length data fuel ((i + 2) % 256)
        (Function.update
          (Function.update txbuf (i + 1) ((data i >>> 8) &&& 0xff))
          (i + 2) (data i &&& 0xff))
    else txbuf

/-- The transmit buffer `I2CdevwriteWords` builds, as the list of its first
`length * 2 + 1` cells.  The local `mpu_txbuf` starts as zeros (every cell that
is transmitted is written first). -/
def writeWordsFrame (regAddr length : Nat) (data : Mem) : List Nat :=
  let mpu_txbuf :=
    writeWordsSplit length data (I2CDEV_BUFFER_LENGTH + 1) 0 (Function.update (fun _ => 0) 0 regAddr)
  (List.range (length * 2 + 1)).map mpu_txbuf

/-- Function `I2CdevwriteWords`. -/
def I2CdevwriteWords (hal : Hal σ) (s : σ) (devAddr regAddr length : Nat) (data : Mem) :
    Nat × σ :=
  if length * 2 + 1 > I2CDEV_BUFFER_LENGTH then
    (FALSE, s)
  else
    let s1 := hal.i2cAcquireBus s
    let r := hal.i2cMasterTransmitTimeout s1 devAddr (writeWordsFrame regAddr length data)
      (fun _ => 0) 0 none
    let s2 := hal.i2cReleaseBus r.2.2
    if r.1 = RDY_TIMEOUT ∨ r.1 = RDY_RESET then (FALSE, s2) else (TRUE, s2)

/-! ## Single-unit transfers -/

/-- Function `I2CdevreadByte`. -/
def I2CdevreadByte (hal : Hal σ) (s : σ) (devAddr regAddr : Nat) (data : Mem)
    (timeout : Nat) : Nat × Mem × σ :=
  I2CdevreadBytes hal s devAddr regAddr 1 data timeout

/-- Function `I2CdevreadWord`. -/
def I2CdevreadWord (hal : Hal σ) (s : σ) (devAddr regAddr : Nat) (data : Mem)
    (timeout : Nat) : Nat × Mem × σ :=
  I2CdevreadWords hal s devAddr regAddr 1 data timeout

/-- Function `I2CdevwriteByte`: `&data` is a one-cell array holding the argument. -/
def I2CdevwriteByte (hal : Hal σ) (s : σ) (devAddr regAddr data : Nat) : Nat × σ :=
  I2CdevwriteBytes hal s devAddr regAddr 1 (fun _ => data)

/-- Function `I2CdevwriteWord`: `&data` is a one-cell array holding the argument. -/
def I2CdevwriteWord (hal : Hal σ) (s : σ) (devAddr regAddr data : Nat) : Nat × σ :=
  I2CdevwriteWords hal s devAddr regAddr 1 (fun _ => data)

/-! ## Bit and bit-field readers

The caller's output cell `*data` is passed as its prior content and returned as
its content after the call.  A local such as `uint8_t b = 0` whose address is
handed down is the one-cell array `fun _ => 0`, read back at index `0`. -/

/-- Function `I2CdevreadBit`. -/
def I2CdevreadBit (hal : Hal σ) (s : σ) (devAddr regAddr bitNum : Nat) (timeout : Nat) :
    Nat × Nat × σ :=
  let r := I2CdevreadByte hal s devAddr regAddr (fun _ => 0) timeout
  let b := r.2.1 0
  (r.1, (b &&& (1 <<< bitNum)) % 256, r.2.2)

/-- Function `I2CdevreadBitW`. -/
def I2CdevreadBitW (hal : Hal σ) (s : σ) (devAddr regAddr bitNum : Nat) (timeout : Nat) :
    Nat × Nat × σ :=
  let r := I2CdevreadWord hal s devAddr regAddr (fun _ => 0) timeout
  let b := r.2.1 0
  (r.1, (b &&& (1 <<< bitNum)) % 65536, r.2.2)

/-- Function `I2CdevreadBits`, with `mask` a `uint8_t`. -/
def I2CdevreadBits (hal : Hal σ) (s : σ) (devAddr regAddr bitStart length : Nat) (data : Nat)
    (timeout : Nat) : Nat × Nat × σ :=
  let r := I2CdevreadByte hal s devAddr regAddr (fun _ => 0) timeout
  let count := r.1
  if count ≠ 0 then
    let b := r.2.1 0
    let mask := fieldMask bitStart length % 256
    let b := b &&& mask
    let b := b >>> fieldShift bitStart length
    (count, b, r.2.2)
  else
    (count, data, r.2.2)

/-- Function `I2CdevreadBitsW`, with `mask` a `uint16_t`. -/
def I2CdevreadBitsW (hal : Hal σ) (s : σ) (devAddr regAddr bitStart length : Nat) (data : Nat)
    (timeout : Nat) : Nat × Nat × σ :=
  let r := I2CdevreadWord hal s devAddr regAddr (fun _ => 0) timeout
  let count := r.1
  if count ≠ 0 then
    let w := r.2.1 0
    let mask := fieldMask bitStart length % 65536
    let w := w &&& mask
    let w := w >>> fieldShift bitStart length
    (count, w, r.2.2)
  else
    (count, data, r.2.2)

/-! ## Bit and bit-field writers -/

/-- Function `I2CdevwriteBit`: the status of the read is dropped. -/
def I2CdevwriteBit (hal : Hal σ) (s : σ) (devAddr regAddr bitNum data : Nat) : Nat × σ :=
  let r := I2CdevreadByte hal s devAddr regAddr (fun _ => 0) I2CDEV_DEFAULT_READ_TIMEOUT
  let b := r.2.1 0
  let b := (if data ≠ 0 then b ||| (1 <<< bitNum) else b &&& bitNot32 (1 <<< bitNum)) % 256
  I2CdevwriteByte hal r.2.2 devAddr regAddr b

/-- Function `I2CdevwriteBitW`: the status of the read is dropped. -/
def I2CdevwriteBitW (hal : Hal σ) (s : σ) (devAddr regAddr bitNum data : Nat) : Nat × σ :=
  let r := I2CdevreadWord hal s devAddr regAddr (fun _ => 0) I2CDEV_DEFAULT_READ_TIMEOUT
  let w := r.2.1 0
  let w := (if data ≠ 0 then w ||| (1 <<< bitNum) else w &&& bitNot32 (1 <<< bitNum)) % 65536
  I2CdevwriteWord hal r.2.2 devAddr regAddr w

/-- Function `I2CdevwriteBits`, with `mask`, `data` and `b` of type `uint8_t`. -/
def I2CdevwriteBits (hal : Hal σ) (s : σ) (devAddr regAddr bitStart length data : Nat) :
    Nat × σ :=
  let r := I2CdevreadByte hal s devAddr regAddr (fun _ => 0) I2CDEV_DEFAULT_READ_TIMEOUT
  if r.1 ≠ 0 then
    let b := r.2.1 0
    let mask := fieldMask bitStart length % 256
    let data := (data <<< fieldShift bitStart length) % 256
    let data := data &&& mask
    let b := (b &&& bitNot32 mask) % 256
    let b := b ||| data
    I2CdevwriteByte hal r.2.2 devAddr regAddr b
  else
    (FALSE, r.2.2)

/-- Function `I2CdevwriteBitsW`, with `mask` of type `uint8_t` and `data`, `w` of type
`uint16_t`. -/
def I2CdevwriteBitsW (hal : Hal σ) (s : σ) (devAddr regAddr bitStart length data : Nat) :
    Nat × σ :=
  let r := I2CdevreadWord hal s devAddr regAddr (fun _ => 0) I2CDEV_DEFAULT_READ_TIMEOUT
  if r.1 ≠ 0 then
    let w := r.2.1 0
    let mask := fieldMask bitStart length % 256
    let data := (data <<< fieldShift bitStart length) % 65536
    let data := data &&& mask
    let w := (w &&& bitNot32 mask) % 65536
    let w := w ||| data
    I2CdevwriteWord hal r.2.2 devAddr regAddr w
  else
    (FALSE, r.2.2)

/-! ## A device test double

Every transfer succeeds.  The device keeps one byte per register address and
moves to the next address after each byte, first storing the payload that
follows the register address and then returning `rxbytes` bytes from the
register address on. -/

/-- What the bus saw. -/
inductive BusEvent where
  | acquire
  | transfer (devAddr : Nat) (tx : List Nat) (rxbytes : Nat)
  | release
  deriving DecidableEq, Repr

/-- State of the test double: register bytes per device address, the bus events so
far, and the number of diagnostics emitted. -/
structure TestBus where
  mem : Nat → Nat → Nat
  trace : List BusEvent
  diag : Nat

/-- Store a payload at consecutive register addresses. -/
def storeBytes (regs : Nat → Nat) : Nat → List Nat → Nat → Nat
  | _, [] => regs
  | reg, b :: bs => storeBytes (Function.update regs reg b) (reg + 1) bs

/-- The register file of a device after a transfer with transmit bytes `tx`. -/
def afterTx (regs : Nat → Nat) : List Nat → Nat → Nat
  | [] => regs
  | reg :: payload => storeBytes regs reg payload

/-- The test double as a driver. -/
def testHal : Hal TestBus where
  i2cAcquireBus s := ⟨s.mem, s.trace ++ [BusEvent.acquire], s.diag⟩
  i2cReleaseBus s := ⟨s.mem, s.trace ++ [BusEvent.release], s.diag⟩
  i2cMasterTransmitTimeout s devAddr tx rxbuf rxbytes _ :=
    let regs := afterTx (s.mem devAddr) tx
    (RDY_OK,
     fun i => if i < rxbytes then regs (tx.headD 0 + i) else rxbuf i,
     ⟨Function.update s.mem devAddr regs,
      s.trace ++ [BusEvent.transfer devAddr tx rxbytes], s.diag⟩)
  chprintf s := ⟨s.mem, s.trace, s.diag + 1⟩

/-- The 16-bit register at `regAddr` of the test double: high byte first. -/
def TestBus.word (s : TestBus) (devAddr regAddr : Nat) : Nat :=
  s.mem devAddr regAddr * 256 + s.mem devAddr (regAddr + 1)

/-- A fresh test double whose registers hold `bytes` from register address
`regAddr` on (on every device) and zero elsewhere. -/
def busOf (regAddr : Nat) (bytes : List Nat) : TestBus :=
  ⟨fun _ r => if regAddr ≤ r then bytes.getD (r - regAddr) 0 else 0, [], 0⟩

/-! ## The values the field writers hand to the single-unit writers -/

/-- The byte `I2CdevwriteBits` passes to `I2CdevwriteByte`, from the register byte
`b` it read: the four assignments `data <<= ...; data &= mask; b &= ~(mask);
b |= data;` with `mask` a `uint8_t`. -/
def writeBitsByte (b bitStart length data : Nat) : Nat :=
  ((b &&& bitNot32 (fieldMask bitStart length % 256)) % 256) |||
    (((data <<< fieldShift bitStart length) % 256) &&& (fieldMask bitStart length % 256))

/-- The word `I2CdevwriteBitsW` passes to `I2CdevwriteWord`, from the register word
`w` it read: the same four assignments on `uint16_t` operands, with `mask` a
`uint8_t`. -/
def writeBitsWWord (w bitStart length data : Nat) : Nat :=
  ((w &&& bitNot32 (fieldMask bitStart length % 256)) % 65536) |||
    (((data <<< fieldShift bitStart length) % 65536) &&& (fieldMask bitStart length % 256))

/-- The byte `I2CdevwriteBit` passes to `I2CdevwriteByte`, from the byte `b` left by
the read: `b = (data != 0) ? (b | (1 << bitNum)) : (b & ~(1 << bitNum))`. -/
def writeBitByte (b bitNum data : Nat) : Nat :=
  (if data ≠ 0 then b ||| (1 <<< bitNum) else b &&& bitNot32 (1 <<< bitNum)) % 256

/-- The word `I2CdevwriteBitW` passes to `I2CdevwriteWord`, from the word `w` left by
the read: `w = (data != 0) ? (w | (1 << bitNum)) : (w & ~(1 << bitNum))`. -/
def writeBitWWord (w bitNum data : Nat) : Nat :=
  (if data ≠ 0 then w ||| (1 <<< bitNum) else w &&& bitNot32 (1 <<< bitNum)) % 65536

/-- The events one successful read-modify-write leaves on the bus of the test
double: a read of `n` bytes from `regAddr`, then a write of `payload`. -/
def rmwTrace (devAddr regAddr n : Nat) (payload : List Nat) : List BusEvent :=
  [BusEvent.acquire, BusEvent.transfer devAddr [regAddr] n, BusEvent.release,
   BusEvent.acquire, BusEvent.transfer devAddr (regAddr :: payload) 0, BusEvent.release]

/-! ## A test double with scripted transfer outcomes

The same device, with the status of each coming transfer taken from a script
(`RDY_OK` once the script is used up).  A transfer that ends in `RDY_TIMEOUT` or
`RDY_RESET` is recorded on the bus but moves no data. -/

/-- State of the scripted test double: the device and the statuses still to come. -/
structure ScriptBus where
  bus : TestBus
  script : List Int

/-- The scripted test double as a driver. -/
def scriptHal : Hal ScriptBus where
  i2cAcquireBus s := ⟨testHal.i2cAcquireBus s.bus, s.script⟩
  i2cReleaseBus s := ⟨testHal.i2cReleaseBus s.bus, s.script⟩
  i2cMasterTransmitTimeout s devAddr tx rxbuf rxbytes timeout :=
    let msg := s.script.headD RDY_OK
    if msg = RDY_TIMEOUT ∨ msg = RDY_RESET then
      (msg, rxbuf,
       ⟨⟨s.bus.mem, s.bus.trace ++ [BusEvent.transfer devAddr tx rxbytes], s.bus.diag⟩,
        s.script.tail⟩)
    else
      let r := testHal.i2cMasterTransmitTimeout s.bus devAddr tx rxbuf rxbytes timeout
      (msg, r.2.1, ⟨r.2.2, s.script.tail⟩)
  chprintf s := ⟨testHal.chprintf s.bus, s.script⟩

/-- Whether the bus is held after the events `tr`: the last acquire or release
decides. -/
def busLocked (tr : List BusEvent) : Bool :=
  tr.foldl (fun held e =>
    match e with
    | BusEvent.acquire => true
    | BusEvent.release => false
    | BusEvent.transfer _ _ _ => held) false

end I2Cdev

/-! # The quaternion helper, over exact arithmetic -/

namespace Helper3DMath

/-- Struct `Quaternion`, with `float` read as `ℚ`. -/
structure Quaternion where
  w : ℚ
  x : ℚ
  y : ℚ
  z : ℚ
  deriving DecidableEq

/-- Struct `VectorInt16`: each field is an `int16_t`, a value in `[-32768, 32767]`. -/
structure VectorInt16 where
  x : Int
  y : Int
  z : Int
  deriving DecidableEq

/-- Struct `VectorFloat`, with `float` read as `ℚ`. -/
structure VectorFloat where
  x : ℚ
  y : ℚ
  z : ℚ
  deriving DecidableEq

/-- Function `getProduct`, term by term as the four assignments to `tmp`. -/
def getProduct (q1 q2 : Quaternion) : Quaternion where
  w := q1.w * q2.w - q1.x * q2.x - q1.y * q2.y - q1.z * q2.z
  x := q1.w * q2.x - q1.x * q2.w - q1.y * q2.z - q1.z * q2.y
  y := q1.w * q2.y - q1.x * q2.z - q1.y * q2.w - q1.z * q2.x
  z := q1.w * q2.z - q1.x * q2.y - q1.y * q2.x - q1.z * q2.w

/-- The product announced by the comment inside `getProduct` (and by the spec):
the Hamilton product. -/
def hamiltonProduct (q1 q2 : Quaternion) : Quaternion where
  w := q1.w * q2.w - q1.x * q2.x - q1.y * q2.y - q1.z * q2.z
  x := q1.w * q2.x + q1.x * q2.w + q1.y * q2.z - q1.z * q2.y
  y := q1.w * q2.y - q1.x * q2.z + q1.y * q2.w + q1.z * q2.x
  z := q1.w * q2.z + q1.x * q2.y - q1.y * q2.x + q1.z * q2.w

/-- Function `getConjugate`. -/
def getConjugate (q : Quaternion) : Quaternion where
  w := q.w
  x := -q.x
  y := -q.y
  z := -q.z

/-- The argument of `sqrtf` in `getMagnitudeQuat`. -/
def sqMagnitudeQuat (q : Quaternion) : ℚ :=
  q.w * q.w + q.x * q.x + q.y * q.y + q.z * q.z

/-- The argument of `sqrtf` in `getMagnitudeVectFloat`. -/
def sqMagnitudeVectFloat (v : VectorFloat) : ℚ :=
  v.x * v.x + v.y * v.y + v.z * v.z

/-- Conversion of a `float` to `int16_t` on assignment: the fraction is dropped
(rounding toward zero) and the integer is kept modulo `2 ^ 16` in the signed
range; values within `[-32768, 32767]` are unchanged. -/
def floatToInt16 (r : ℚ) : Int :=
  (Int.tdiv r.num r.den + 32768) % 65536 - 32768

/-- Function `rotateVectInt`: returns the content of `*v` after the call. -/
def rotateVectInt (v : VectorInt16) (q : Quaternion) : VectorInt16 :=
  let p : Quaternion := ⟨0, v.x, v.y, v.z⟩
  let p := getProduct q p
  let tmpConjugate := getConjugate q
  let p := getProduct p tmpConjugate
  ⟨floatToInt16 p.x, floatToInt16 p.y, floatToInt16 p.z⟩

/-- Function `rotateVectFloat`: returns the content of `*v` after the call. -/
def rotateVectFloat (v : VectorFloat) (q : Quaternion) : VectorFloat :=
  let p : Quaternion := ⟨0, v.x, v.y, v.z⟩
  let p := getProduct q p
  let tmpConjugate := getConjugate q
  let p := getProduct p tmpConjugate
  ⟨p.x, p.y, p.z⟩

/-- The value a 32-bit signed `int` holds for the mathematical result `z` of an
`int` operation: `z` reduced modulo `2 ^ 32` into `[-2 ^ 31, 2 ^ 31)`. -/
def wrapInt32 (z : Int) : Int :=
  (z + 2 ^ 31) % 2 ^ 32 - 2 ^ 31

/-- The argument of `sqrt` in `getMagnitudeVectInt`, `v->x*v->x + v->y*v->y + v->z*v->z`:
the `int16_t` fields are promoted to `int` and each product and each sum (left to
right) is an `int` operation. -/
def sqMagnitudeVectInt (v : VectorInt16) : Int :=
  wrapInt32 (wrapInt32 (wrapInt32 (v.x * v.x) + wrapInt32 (v.y * v.y)) + wrapInt32 (v.z * v.z))

end Helper3DMath

namespace I2Cdev

/-! ## Bit-level lemmas -/

theorem testBit_bitNot32 (m j : Nat) (hm : m < 2 ^ 32) :
    (bitNot32 m).testBit j = (decide (j < 32) && !m.testBit j) := by
  unfold bitNot32
  have h : 2 ^ 32 - 1 - m = 2 ^ 32 - (m + 1) := by omega
  rw [h, Nat.testBit_two_pow_sub_succ hm]

theorem testBit_fieldMask (bitStart length j : Nat) :
    (fieldMask bitStart length).testBit j
      = (decide (fieldShift bitStart length ≤ j)
          && decide (j - fieldShift bitStart length < length)) := by
  unfold fieldMask
  rw [Nat.testBit_shiftLeft, Nat.shiftLeft_eq, Nat.one_mul, Nat.testBit_two_pow_sub_one]

theorem testBit_mod_256 (x j : Nat) :
    (x % 256).testBit j = (decide (j < 8) && x.testBit j) :=
  Nat.testBit_mod_two_pow x 8 j

theorem testBit_mod_65536 (x j : Nat) :
    (x % 65536).testBit j = (decide (j < 16) && x.testBit j) :=
  Nat.testBit_mod_two_pow x 16 j

/-! ## The calls on the test double -/

theorem readByte_testHal (s : TestBus) (devAddr regAddr t : Nat) (buf : Mem) :
    I2CdevreadByte testHal s devAddr regAddr buf t
      = (TRUE, fun i => if i < 1 then s.mem devAddr (regAddr + i) else buf i,
         ⟨s.mem, s.trace ++ [BusEvent.acquire, BusEvent.transfer devAddr [regAddr] 1,
            BusEvent.release], s.diag⟩) := by
  simp [I2CdevreadByte, I2CdevreadBytes, testHal, I2CDEV_BUFFER_LENGTH, RDY_OK, RDY_TIMEOUT,
    RDY_RESET, afterTx, storeBytes]

theorem writeByte_testHal (s : TestBus) (devAddr regAddr b : Nat) :
    I2CdevwriteByte testHal s devAddr regAddr b
      = (TRUE,
         ⟨Function.update s.mem devAddr (Function.update (s.mem devAddr) regAddr b),
          s.trace ++ [BusEvent.acquire, BusEvent.transfer devAddr [regAddr, b] 0,
            BusEvent.release], s.diag⟩) := by
  simp [I2CdevwriteByte, I2CdevwriteBytes, testHal, I2CDEV_BUFFER_LENGTH, RDY_OK, RDY_TIMEOUT,
    RDY_RESET, afterTx, storeBytes, List.range_succ]

theorem writeBits_testHal (s : TestBus) (devAddr regAddr bitStart length data : Nat) :
    I2CdevwriteBits testHal s devAddr regAddr bitStart length data
      = (TRUE,
         ⟨Function.update s.mem devAddr (Function.update (s.mem devAddr) regAddr
            (writeBitsByte (s.mem devAddr regAddr) bitStart length data)),
          s.trace ++ rmwTrace devAddr regAddr 1
            [writeBitsByte (s.mem devAddr regAddr) bitStart length data], s.diag⟩) := by
  unfold I2CdevwriteBits
  simp [readByte_testHal, writeByte_testHal, TRUE, writeBitsByte, rmwTrace]

theorem readBits_testHal (s : TestBus) (devAddr regAddr bitStart length out t : Nat) :
    I2CdevreadBits testHal s devAddr regAddr bitStart length out t
      = (TRUE,
         (s.mem devAddr regAddr &&& (fieldMask bitStart length % 256))
           >>> fieldShift bitStart length,
         ⟨s.mem, s.trace ++ [BusEvent.acquire, BusEvent.transfer devAddr [regAddr] 1,
            BusEvent.release], s.diag⟩) := by
  unfold I2CdevreadBits
  simp [readByte_testHal, TRUE]

theorem testBit_writeBitsByte (b bitStart length data j : Nat) :
    (writeBitsByte b bitStart length data).testBit j
      = (decide (j < 8) &&
          if fieldShift bitStart length ≤ j ∧ j - fieldShift bitStart length < length
          then data.testBit (j - fieldShift bitStart length) else b.testBit j) := by
  have hm : fieldMask bitStart length % 256 < 2 ^ 32 :=
    lt_trans (Nat.mod_lt _ (by norm_num)) (by norm_num)
  unfold writeBitsByte
  simp only [Nat.testBit_or, Nat.testBit_and, testBit_mod_256, testBit_bitNot32 _ _ hm,
    testBit_fieldMask, Nat.testBit_shiftLeft]
  by_cases h8 : j < 8
  · have h32 : j < 32 := by omega
    by_cases hs : fieldShift bitStart length ≤ j
    · by_cases hl : j - fieldShift bitStart length < length
      · simp [h8, h32, hs, hl]
      · simp [h8, h32, hs, hl]
    · simp [h8, h32, hs]
  · simp [h8]

theorem field_extract_writeBitsByte (b bitStart length v : Nat) (hs : bitStart ≤ 7)
    (h2 : length ≤ bitStart + 1) (hv : v < 2 ^ length) :
    (writeBitsByte b bitStart length v &&& (fieldMask bitStart length % 256))
      >>> fieldShift bitStart length = v := by
  apply Nat.eq_of_testBit_eq
  intro j
  simp only [Nat.testBit_shiftRight, Nat.testBit_and, testBit_writeBitsByte, testBit_mod_256,
    testBit_fieldMask]
  have hsh : fieldShift bitStart length + length ≤ 8 := by unfold fieldShift; omega
  by_cases hj : j < length
  · have h8 : fieldShift bitStart length + j < 8 := by omega
    simp [hj, h8]
  · have hz : v.testBit j = false :=
      Nat.testBit_lt_two_pow
        (lt_of_lt_of_le hv (Nat.pow_le_pow_right (by norm_num) (Nat.le_of_not_lt hj)))
    simp [hj, hz]

/-! ## 8-bit bit fields -/

/-- C1. On the test double, for every register address and prior content, every
`bitStart ≤ 7`, every `length` with `1 ≤ length ≤ bitStart + 1` and every
`v < 2 ^ length`, `I2CdevwriteBits` followed by `I2CdevreadBits` on the same field
returns success from both calls and leaves `v` in the output cell. -/
theorem writeBits_readBits_roundtrip (s : TestBus) (devAddr regAddr bitStart length v out t : Nat)
    (hs : bitStart ≤ 7) (h1 : 1 ≤ length) (h2 : length ≤ bitStart + 1) (hv : v < 2 ^ length) :
    (I2CdevwriteBits testHal s devAddr regAddr bitStart length v).1 = TRUE ∧
    (I2CdevreadBits testHal (I2CdevwriteBits testHal s devAddr regAddr bitStart length v).2
      devAddr regAddr bitStart length out t).1 = TRUE ∧
    (I2CdevreadBits testHal (I2CdevwriteBits testHal s devAddr regAddr bitStart length v).2
      devAddr regAddr bitStart length out t).2.1 = v := by
  have _ := h1
  rw [writeBits_testHal, readBits_testHal]
  simp [field_extract_writeBitsByte _ _ _ _ hs h2 hv]

/-- Witness for C1: the field of the source comment (`bitStart = 4`, `length = 3`)
written with `0b010` over the register byte `0xAF`. -/
theorem writeBits_readBits_roundtrip_witness :
    (I2CdevwriteBits testHal (busOf 5 [0xAF]) 0x68 5 4 3 2).1 = TRUE ∧
    (I2CdevreadBits testHal (I2CdevwriteBits testHal (busOf 5 [0xAF]) 0x68 5 4 3 2).2
      0x68 5 4 3 0 1000).1 = TRUE ∧
    (I2CdevreadBits testHal (I2CdevwriteBits testHal (busOf 5 [0xAF]) 0x68 5 4 3 2).2
      0x68 5 4 3 0 1000).2.1 = 2 :=
  writeBits_readBits_roundtrip (busOf 5 [0xAF]) 0x68 5 4 3 2 0 1000
    (by decide) (by decide) (by decide) (by decide)

/-- C2. On the test double, for every prior register byte `b`, every `bitStart ≤ 7`,
every `length` with `1 ≤ length ≤ bitStart + 1` and every data, `I2CdevwriteBits`
reads the register once and writes one byte back to it, and that byte agrees with
`b` on every bit position `k` outside `[bitStart - length + 1, bitStart]`. -/
theorem writeBits_frame (s : TestBus) (devAddr regAddr bitStart length data k : Nat)
    (hb : s.mem devAddr regAddr < 256)
    (hs : bitStart ≤ 7) (h1 : 1 ≤ length) (h2 : length ≤ bitStart + 1)
    (hk : k < bitStart + 1 - length ∨ bitStart < k) :
    ∃ written,
      (I2CdevwriteBits testHal s devAddr regAddr bitStart length data).2.trace
        = s.trace ++ rmwTrace devAddr regAddr 1 [written] ∧
      (I2CdevwriteBits testHal s devAddr regAddr bitStart length data).2.mem devAddr regAddr
        = written ∧
      written.testBit k = (s.mem devAddr regAddr).testBit k := by
  have _ := hs
  have _ := h1
  refine ⟨writeBitsByte (s.mem devAddr regAddr) bitStart length data, ?_, ?_, ?_⟩
  · rw [writeBits_testHal]
  · rw [writeBits_testHal]; simp
  · rw [testBit_writeBitsByte]
    have hcond : ¬ (fieldShift bitStart length ≤ k ∧ k - fieldShift bitStart length < length) := by
      unfold fieldShift; omega
    rw [if_neg hcond]
    by_cases h8 : k < 8
    · simp [h8]
    · have hz : (s.mem devAddr regAddr).testBit k = false :=
        Nat.testBit_lt_two_pow
          (lt_of_lt_of_le hb (by
            have : (256 : Nat) = 2 ^ 8 := by norm_num
            rw [this]
            exact Nat.pow_le_pow_right (by norm_num) (Nat.le_of_not_lt h8)))
      simp [h8, hz]

/-- Witness for C2: bit 7 of the register byte `0xAF` survives a write to the field
`bitStart = 4`, `length = 3`. -/
theorem writeBits_frame_witness :
    ∃ written,
      (I2CdevwriteBits testHal (busOf 5 [0xAF]) 0x68 5 4 3 2).2.trace
        = (busOf 5 [0xAF]).trace ++ rmwTrace 0x68 5 1 [written] ∧
      (I2CdevwriteBits testHal (busOf 5 [0xAF]) 0x68 5 4 3 2).2.mem 0x68 5 = written ∧
      written.testBit 7 = ((busOf 5 [0xAF]).mem 0x68 5).testBit 7 :=
  writeBits_frame (busOf 5 [0xAF]) 0x68 5 4 3 2 7
    (by decide) (by decide) (by decide) (by decide) (by decide)

/-! ## 16-bit bit fields -/

theorem readWord_testHal (s : TestBus) (devAddr regAddr t : Nat) (buf : Mem) :
    I2CdevreadWord testHal s devAddr regAddr buf t
      = (TRUE,
         Function.update buf 0
           (((s.mem devAddr regAddr <<< 8) + s.mem devAddr (regAddr + 1)) % 65536),
         ⟨s.mem, s.trace ++ [BusEvent.acquire, BusEvent.transfer devAddr [regAddr] 2,
            BusEvent.release], s.diag⟩) := by
  simp [I2CdevreadWord, I2CdevreadWords, testHal, I2CDEV_BUFFER_LENGTH, RDY_OK, RDY_TIMEOUT,
    RDY_RESET, afterTx, storeBytes, readWordsAssemble]

theorem writeWord_testHal (s : TestBus) (devAddr regAddr w : Nat) :
    I2CdevwriteWord testHal s devAddr regAddr w
      = (TRUE,
         ⟨Function.update s.mem devAddr
            (Function.update (Function.update (s.mem devAddr) regAddr ((w >>> 8) &&& 0xff))
              (regAddr + 1) (w &&& 0xff)),
          s.trace ++ [BusEvent.acquire,
            BusEvent.transfer devAddr [regAddr, (w >>> 8) &&& 0xff, w &&& 0xff] 0,
            BusEvent.release], s.diag⟩) := by
  simp [I2CdevwriteWord, I2CdevwriteWords, writeWordsFrame, writeWordsSplit, testHal,
    I2CDEV_BUFFER_LENGTH, RDY_OK, RDY_TIMEOUT, RDY_RESET, afterTx, storeBytes, List.range_succ]

theorem writeBitsW_testHal (s : TestBus) (devAddr regAddr bitStart length data : Nat) :
    I2CdevwriteBitsW testHal s devAddr regAddr bitStart length data
      = I2CdevwriteWord testHal
          ⟨s.mem, s.trace ++ [BusEvent.acquire, BusEvent.transfer devAddr [regAddr] 2,
            BusEvent.release], s.diag⟩
          devAddr regAddr
          (writeBitsWWord (((s.mem devAddr regAddr <<< 8) + s.mem devAddr (regAddr + 1)) % 65536)
            bitStart length data) := by
  unfold I2CdevwriteBitsW
  simp [readWord_testHal, TRUE, writeBitsWWord]

theorem word_of_bytes (hi lo : Nat) (hhi : hi < 256) (hlo : lo < 256) :
    ((hi <<< 8) + lo) % 65536 = hi * 256 + lo := by
  rw [Nat.shiftLeft_eq]
  omega

theorem bytes_of_word (w : Nat) (hw : w < 65536) :
    ((w >>> 8) &&& 0xff) * 256 + (w &&& 0xff) = w := by
  have h : (0xff : Nat) = 2 ^ 8 - 1 := by norm_num
  rw [h, Nat.and_pow_two_sub_one_eq_mod, Nat.and_pow_two_sub_one_eq_mod,
    Nat.shiftRight_eq_div_pow]
  omega

theorem testBit_writeBitsWWord (w bitStart length data j : Nat) :
    (writeBitsWWord w bitStart length data).testBit j
      = (decide (j < 16) &&
          if fieldShift bitStart length ≤ j ∧ j - fieldShift bitStart length < length ∧ j < 8
          then data.testBit (j - fieldShift bitStart length) else w.testBit j) := by
  have hm : fieldMask bitStart length % 256 < 2 ^ 32 :=
    lt_trans (Nat.mod_lt _ (by norm_num)) (by norm_num)
  unfold writeBitsWWord
  simp only [Nat.testBit_or, Nat.testBit_and, testBit_mod_256, testBit_mod_65536,
    testBit_bitNot32 _ _ hm, testBit_fieldMask, Nat.testBit_shiftLeft]
  by_cases h16 : j < 16
  · have h32 : j < 32 := by omega
    by_cases h8 : j < 8
    · by_cases hs : fieldShift bitStart length ≤ j
      · by_cases hl : j - fieldShift bitStart length < length
        · simp [h16, h8, h32, hs, hl]
        · simp [h16, h8, h32, hs, hl]
      · simp [h16, h8, h32, hs]
    · simp [h16, h8, h32]
  · simp [h16]

theorem writeBitsWWord_lt (w bitStart length data : Nat) :
    writeBitsWWord w bitStart length data < 65536 := by
  have h : (65536 : Nat) = 2 ^ 16 := by norm_num
  rw [h]
  apply Nat.lt_pow_two_of_testBit
  intro j hj
  rw [testBit_writeBitsWWord]
  have : ¬ j < 16 := by omega
  simp [this]

/-- C4. On the test double, for every prior register word `w` (its two bytes at
`regAddr` and `regAddr + 1`), every `bitStart ≤ 15`, every `length` with
`1 ≤ length ≤ bitStart + 1` and every data, `I2CdevwriteBitsW` reads the register
once and writes one word back, high byte first, and that word agrees with `w` on
every bit position `k` outside `[bitStart - length + 1, bitStart]`. -/
theorem writeBitsW_frame (s : TestBus) (devAddr regAddr bitStart length data k : Nat)
    (hhi : s.mem devAddr regAddr < 256) (hlo : s.mem devAddr (regAddr + 1) < 256)
    (hs : bitStart ≤ 15) (h1 : 1 ≤ length) (h2 : length ≤ bitStart + 1)
    (hk : k < bitStart + 1 - length ∨ bitStart < k) :
    ∃ written,
      (I2CdevwriteBitsW testHal s devAddr regAddr bitStart length data).1 = TRUE ∧
      (I2CdevwriteBitsW testHal s devAddr regAddr bitStart length data).2.trace
        = s.trace ++ rmwTrace devAddr regAddr 2 [(written >>> 8) &&& 0xff, written &&& 0xff] ∧
      (I2CdevwriteBitsW testHal s devAddr regAddr bitStart length data).2.word devAddr regAddr
        = written ∧
      written.testBit k = (s.word devAddr regAddr).testBit k := by
  have _ := hs
  have _ := h1
  refine ⟨writeBitsWWord (s.word devAddr regAddr) bitStart length data, ?_, ?_, ?_, ?_⟩
  · rw [writeBitsW_testHal, writeWord_testHal]
  · rw [writeBitsW_testHal, writeWord_testHal, word_of_bytes _ _ hhi hlo]
    simp [rmwTrace, TestBus.word]
  · rw [writeBitsW_testHal, writeWord_testHal, word_of_bytes _ _ hhi hlo]
    simp only [TestBus.word, Function.update_same, ne_eq, Nat.succ_ne_self, not_false_eq_true,
      Function.update_noteq, Nat.self_eq_add_right, one_ne_zero]
    exact bytes_of_word _ (writeBitsWWord_lt _ _ _ _)
  · rw [testBit_writeBitsWWord]
    have hcond : ¬ (fieldShift bitStart length ≤ k ∧ k - fieldShift bitStart length < length
        ∧ k < 8) := by
      unfold fieldShift; omega
    rw [if_neg hcond]
    by_cases h16 : k < 16
    · simp [h16]
    · have hw : s.word devAddr regAddr < 2 ^ 16 := by
        unfold TestBus.word; omega
      have hz : (s.word devAddr regAddr).testBit k = false :=
        Nat.testBit_lt_two_pow
          (lt_of_lt_of_le hw (Nat.pow_le_pow_right (by norm_num) (Nat.le_of_not_lt h16)))
      simp [h16, hz]

/-- Witness for C4: bit 15 of the register word `0xAF96` survives a write to the
field `bitStart = 12`, `length = 3`. -/
theorem writeBitsW_frame_witness :
    ∃ written,
      (I2CdevwriteBitsW testHal (busOf 5 [0xAF, 0x96]) 0x68 5 12 3 2).1 = TRUE ∧
      (I2CdevwriteBitsW testHal (busOf 5 [0xAF, 0x96]) 0x68 5 12 3 2).2.trace
        = (busOf 5 [0xAF, 0x96]).trace
            ++ rmwTrace 0x68 5 2 [(written >>> 8) &&& 0xff, written &&& 0xff] ∧
      (I2CdevwriteBitsW testHal (busOf 5 [0xAF, 0x96]) 0x68 5 12 3 2).2.word 0x68 5 = written ∧
      written.testBit 15 = ((busOf 5 [0xAF, 0x96]).word 0x68 5).testBit 15 :=
  writeBitsW_frame (busOf 5 [0xAF, 0x96]) 0x68 5 12 3 2 15
    (by decide) (by decide) (by decide) (by decide) (by decide) (by decide)

/-- C3, evaluated at the field of the source comment of `I2CdevwriteBitsW`
(`bitStart = 12`, `length = 3`, value `0b010`, register word `0xAF96`): both calls
succeed, the word written back is the old `0xAF96` and not the `0xAB96` the
comment announces, and the field reads back as `3`, not as the `2` written. -/
theorem writeBitsW_readBitsW_high_field :
    (I2CdevwriteBitsW testHal (busOf 5 [0xAF, 0x96]) 0x68 5 12 3 2).1 = TRUE ∧
    (I2CdevwriteBitsW testHal (busOf 5 [0xAF, 0x96]) 0x68 5 12 3 2).2.word 0x68 5 = 0xAF96 ∧
    (I2CdevreadBitsW testHal (I2CdevwriteBitsW testHal (busOf 5 [0xAF, 0x96]) 0x68 5 12 3 2).2
      0x68 5 12 3 0 1000).1 = TRUE ∧
    (I2CdevreadBitsW testHal (I2CdevwriteBitsW testHal (busOf 5 [0xAF, 0x96]) 0x68 5 12 3 2).2
      0x68 5 12 3 0 1000).2.1 = 3 := by
  decide

/-! ## Multi-word transfers -/

/-- C5, evaluated at `length = 2` with the raw bytes `0x12 0x34 0x56 0x78` delivered
by a successful transfer into a zeroed word buffer: the call returns success and
`data[0]` is `0x1234`, but `data[1]` is left at its prior `0` and the second word
`0x5678` lands in `data[2]`, one cell past the two-word buffer, because the loop
indexes `data` with the byte counter `i`. -/
theorem readWords_two_words :
    (I2CdevreadWords testHal (busOf 5 [0x12, 0x34, 0x56, 0x78]) 0x68 5 2 (fun _ => 0) 1000).1
      = TRUE ∧
    (I2CdevreadWords testHal (busOf 5 [0x12, 0x34, 0x56, 0x78]) 0x68 5 2 (fun _ => 0) 1000).2.1 0
      = 0x1234 ∧
    (I2CdevreadWords testHal (busOf 5 [0x12, 0x34, 0x56, 0x78]) 0x68 5 2 (fun _ => 0) 1000).2.1 1
      = 0 ∧
    (I2CdevreadWords testHal (busOf 5 [0x12, 0x34, 0x56, 0x78]) 0x68 5 2 (fun _ => 0) 1000).2.1 2
      = 0x5678 := by
  decide

/-- C6, evaluated at `length = 2` with the input array `0x1234, 0x5678` followed in
memory by a cell holding `0xBEEF`: the bus gets `2 * 2 + 1 = 5` bytes starting
with `regAddr` and the split of `data[0]`, but bytes 3 and 4 are the split of the
cell `data[2]` past the array, not of `data[1]`, because the loop indexes `data`
with the byte counter `i`. -/
theorem writeWords_two_words :
    writeWordsFrame 7 2 (fun i => [0x1234, 0x5678, 0xBEEF].getD i 0)
      = [7, 0x12, 0x34, 0xBE, 0xEF] ∧
    (I2CdevwriteWords testHal (busOf 7 []) 0x68 7 2
        (fun i => [0x1234, 0x5678, 0xBEEF].getD i 0)).1 = TRUE ∧
    (I2CdevwriteWords testHal (busOf 7 []) 0x68 7 2
        (fun i => [0x1234, 0x5678, 0xBEEF].getD i 0)).2.trace
      = [BusEvent.acquire, BusEvent.transfer 0x68 [7, 0x12, 0x34, 0xBE, 0xEF] 0,
         BusEvent.release] := by
  decide

end I2Cdev

namespace Helper3DMath

/-! ## Quaternion product and rotation -/

/-- C7, evaluated at `q1 = (0,1,0,0)`, `q2 = (1,0,0,0)`: `getProduct` returns
`(0,-1,0,0)` where the Hamilton product of its own comment is `(0,1,0,0)`; the
`x`, `y`, `z` assignments subtract every term. -/
theorem getProduct_i_one :
    getProduct ⟨0, 1, 0, 0⟩ ⟨1, 0, 0, 0⟩ = ⟨0, -1, 0, 0⟩ ∧
    hamiltonProduct ⟨0, 1, 0, 0⟩ ⟨1, 0, 0, 0⟩ = ⟨0, 1, 0, 0⟩ := by
  norm_num [getProduct, hamiltonProduct]

/-- C8, evaluated at `v = (1,2,3)` and the identity quaternion `(1,0,0,0)`: both
`rotateVectFloat` and `rotateVectInt` leave `(-1,-2,-3)`, the negated vector. -/
theorem rotate_identity_negates :
    rotateVectFloat ⟨1, 2, 3⟩ ⟨1, 0, 0, 0⟩ = ⟨-1, -2, -3⟩ ∧
    rotateVectInt ⟨1, 2, 3⟩ ⟨1, 0, 0, 0⟩ = ⟨-1, -2, -3⟩ := by
  constructor
  · norm_num [rotateVectFloat, getProduct, getConjugate]
  · norm_num [rotateVectInt, getProduct, getConjugate, floatToInt16]

/-- C9, evaluated at the unit quaternion `q = (1/2,1/2,1/2,1/2)` and `v = (1,0,0)`:
`rotateVectFloat` leaves `(-1/2,1/2,1/2)`, whose squared length is `3/4`, not the
`1` of `v`. -/
theorem rotate_changes_length :
    sqMagnitudeQuat ⟨1/2, 1/2, 1/2, 1/2⟩ = 1 ∧
    sqMagnitudeVectFloat ⟨1, 0, 0⟩ = 1 ∧
    rotateVectFloat ⟨1, 0, 0⟩ ⟨1/2, 1/2, 1/2, 1/2⟩ = ⟨-1/2, 1/2, 1/2⟩ ∧
    sqMagnitudeVectFloat (rotateVectFloat ⟨1, 0, 0⟩ ⟨1/2, 1/2, 1/2, 1/2⟩) = 3/4 := by
  refine ⟨?_, ?_, ?_, ?_⟩ <;>
    norm_num [sqMagnitudeQuat, sqMagnitudeVectFloat, rotateVectFloat, getProduct, getConjugate]

/-- C10, evaluated at the unit quaternion `q = (1/2,-1/2,1/2,1/2)`:
`getProduct(q, getConjugate(q))` is `(1,1,-1,-1)`, so `w = 1` but the vector part
is not zero. -/
theorem product_conjugate_unit :
    sqMagnitudeQuat ⟨1/2, -1/2, 1/2, 1/2⟩ = 1 ∧
    getProduct ⟨1/2, -1/2, 1/2, 1/2⟩ (getConjugate ⟨1/2, -1/2, 1/2, 1/2⟩) = ⟨1, 1, -1, -1⟩ := by
  constructor <;> norm_num [sqMagnitudeQuat, getProduct, getConjugate]

end Helper3DMath

namespace I2Cdev

/-! ## The four multi-unit transfers on the scripted test double -/

theorem scriptHal_acquire (s : ScriptBus) :
    scriptHal.i2cAcquireBus s
      = ⟨⟨s.bus.mem, s.bus.trace ++ [BusEvent.acquire], s.bus.diag⟩, s.script⟩ := rfl

theorem scriptHal_release (s : ScriptBus) :
    scriptHal.i2cReleaseBus s
      = ⟨⟨s.bus.mem, s.bus.trace ++ [BusEvent.release], s.bus.diag⟩, s.script⟩ := rfl

theorem scriptHal_chprintf (s : ScriptBus) :
    scriptHal.chprintf s = ⟨⟨s.bus.mem, s.bus.trace, s.bus.diag + 1⟩, s.script⟩ := rfl

theorem scriptHal_transmit_fail (s : ScriptBus) (devAddr rxbytes : Nat) (tx : List Nat)
    (rxbuf : Mem) (timeout : Option Nat)
    (hf : s.script.headD RDY_OK = RDY_TIMEOUT ∨ s.script.headD RDY_OK = RDY_RESET) :
    scriptHal.i2cMasterTransmitTimeout s devAddr tx rxbuf rxbytes timeout
      = (s.script.headD RDY_OK, rxbuf,
         ⟨⟨s.bus.mem, s.bus.trace ++ [BusEvent.transfer devAddr tx rxbytes], s.bus.diag⟩,
          s.script.tail⟩) := by
  simp only [scriptHal]
  rw [if_pos hf]

theorem scriptHal_transmit_ok (s : ScriptBus) (devAddr rxbytes : Nat) (tx : List Nat)
    (rxbuf : Mem) (timeout : Option Nat)
    (hf : ¬ (s.script.headD RDY_OK = RDY_TIMEOUT ∨ s.script.headD RDY_OK = RDY_RESET)) :
    scriptHal.i2cMasterTransmitTimeout s devAddr tx rxbuf rxbytes timeout
      = (s.script.headD RDY_OK,
         fun i => if i < rxbytes then afterTx (s.bus.mem devAddr) tx (tx.headD 0 + i)
                  else rxbuf i,
         ⟨⟨Function.update s.bus.mem devAddr (afterTx (s.bus.mem devAddr) tx),
           s.bus.trace ++ [BusEvent.transfer devAddr tx rxbytes], s.bus.diag⟩,
          s.script.tail⟩) := by
  simp only [scriptHal]
  rw [if_neg hf]
  rfl

theorem readBytes_scriptHal (s : ScriptBus) (devAddr regAddr length t : Nat) (data : Mem)
    (h : length ≤ 64) :
    (I2CdevreadBytes scriptHal s devAddr regAddr length data t).1
      = (if s.script.headD RDY_OK = RDY_TIMEOUT ∨ s.script.headD RDY_OK = RDY_RESET
          then FALSE else TRUE) ∧
    (I2CdevreadBytes scriptHal s devAddr regAddr length data t).2.2.bus.trace
      = s.bus.trace ++ [BusEvent.acquire, BusEvent.transfer devAddr [regAddr] length,
          BusEvent.release] ∧
    (I2CdevreadBytes scriptHal s devAddr regAddr length data t).2.2.script = s.script.tail := by
  have hg : ¬ length > I2CDEV_BUFFER_LENGTH := by unfold I2CDEV_BUFFER_LENGTH; omega
  unfold I2CdevreadBytes
  rw [if_neg hg]
  by_cases hf : s.script.headD RDY_OK = RDY_TIMEOUT ∨ s.script.headD RDY_OK = RDY_RESET
  · dsimp only
    rw [scriptHal_transmit_fail (scriptHal.i2cAcquireBus s) _ _ _ _ _ hf]
    simp only [scriptHal_acquire, scriptHal_release, scriptHal_chprintf]
    generalize s.script.headD RDY_OK = msg at hf
    simp [hf]
  · dsimp only
    rw [scriptHal_transmit_ok (scriptHal.i2cAcquireBus s) _ _ _ _ _ hf]
    simp only [scriptHal_acquire, scriptHal_release, scriptHal_chprintf]
    generalize s.script.headD RDY_OK = msg at hf
    simp [hf]

theorem readWords_scriptHal (s : ScriptBus) (devAddr regAddr length t : Nat) (data : Mem)
    (h : length * 2 ≤ 64) :
    (I2CdevreadWords scriptHal s devAddr regAddr length data t).1
      = (if s.script.headD RDY_OK = RDY_TIMEOUT ∨ s.script.headD RDY_OK = RDY_RESET
          then FALSE else TRUE) ∧
    (I2CdevreadWords scriptHal s devAddr regAddr length data t).2.2.bus.trace
      = s.bus.trace ++ [BusEvent.acquire, BusEvent.transfer devAddr [regAddr] (length * 2),
          BusEvent.release] ∧
    (I2CdevreadWords scriptHal s devAddr regAddr length data t).2.2.script = s.script.tail := by
  have hg : ¬ length * 2 > I2CDEV_BUFFER_LENGTH := by unfold I2CDEV_BUFFER_LENGTH; omega
  unfold I2CdevreadWords
  rw [if_neg hg]
  by_cases hf : s.script.headD RDY_OK = RDY_TIMEOUT ∨ s.script.headD RDY_OK = RDY_RESET
  · dsimp only
    rw [scriptHal_transmit_fail (scriptHal.i2cAcquireBus s) _ _ _ _ _ hf]
    simp only [scriptHal_acquire, scriptHal_release, scriptHal_chprintf]
    generalize s.script.headD RDY_OK = msg at hf
    simp [hf]
  · dsimp only
    rw [scriptHal_transmit_ok (scriptHal.i2cAcquireBus s) _ _ _ _ _ hf]
    simp only [scriptHal_acquire, scriptHal_release, scriptHal_chprintf]
    generalize s.script.headD RDY_OK = msg at hf
    simp [hf]

theorem writeBytes_scriptHal (s : ScriptBus) (devAddr regAddr length : Nat) (data : Mem)
    (h : length + 1 ≤ 64) :
    (I2CdevwriteBytes scriptHal s devAddr regAddr length data).1
      = (if s.script.headD RDY_OK = RDY_TIMEOUT ∨ s.script.headD RDY_OK = RDY_RESET
          then FALSE else TRUE) ∧
    (I2CdevwriteBytes scriptHal s devAddr regAddr length data).2.bus.trace
      = s.bus.trace ++ [BusEvent.acquire,
          BusEvent.transfer devAddr (regAddr :: (List.range length).map data) 0,
          BusEvent.release] ∧
    (I2CdevwriteBytes scriptHal s devAddr regAddr length data).2.script = s.script.tail := by
  have hg : ¬ length + 1 > I2CDEV_BUFFER_LENGTH := by unfold I2CDEV_BUFFER_LENGTH; omega
  unfold I2CdevwriteBytes
  rw [if_neg hg]
  by_cases hf : s.script.headD RDY_OK = RDY_TIMEOUT ∨ s.script.headD RDY_OK = RDY_RESET
  · dsimp only
    rw [scriptHal_transmit_fail (scriptHal.i2cAcquireBus s) _ _ _ _ _ hf]
    simp only [scriptHal_acquire, scriptHal_release, scriptHal_chprintf]
    generalize s.script.headD RDY_OK = msg at hf
    simp [hf]
  · dsimp only
    rw [scriptHal_transmit_ok (scriptHal.i2cAcquireBus s) _ _ _ _ _ hf]
    simp only [scriptHal_acquire, scriptHal_release, scriptHal_chprintf]
    generalize s.script.headD RDY_OK = msg at hf
    simp [hf]

theorem writeWords_scriptHal (s : ScriptBus) (devAddr regAddr length : Nat) (data : Mem)
    (h : length * 2 + 1 ≤ 64) :
    (I2CdevwriteWords scriptHal s devAddr regAddr length data).1
      = (if s.script.headD RDY_OK = RDY_TIMEOUT ∨ s.script.headD RDY_OK = RDY_RESET
          then FALSE else TRUE) ∧
    (I2CdevwriteWords scriptHal s devAddr regAddr length data).2.bus.trace
      = s.bus.trace ++ [BusEvent.acquire,
          BusEvent.transfer devAddr (writeWordsFrame regAddr length data) 0,
          BusEvent.release] ∧
    (I2CdevwriteWords scriptHal s devAddr regAddr length data).2.script = s.script.tail := by
  have hg : ¬ length * 2 + 1 > I2CDEV_BUFFER_LENGTH := by unfold I2CDEV_BUFFER_LENGTH; omega
  unfold I2CdevwriteWords
  rw [if_neg hg]
  by_cases hf : s.script.headD RDY_OK = RDY_TIMEOUT ∨ s.script.headD RDY_OK = RDY_RESET
  · dsimp only
    rw [scriptHal_transmit_fail (scriptHal.i2cAcquireBus s) _ _ _ _ _ hf]
    simp only [scriptHal_acquire, scriptHal_release, scriptHal_chprintf]
    generalize s.script.headD RDY_OK = msg at hf
    simp [hf]
  · dsimp only
    rw [scriptHal_transmit_ok (scriptHal.i2cAcquireBus s) _ _ _ _ _ hf]
    simp only [scriptHal_acquire, scriptHal_release, scriptHal_chprintf]
    generalize s.script.headD RDY_OK = msg at hf
    simp [hf]

/-! ## Size guard, result translation and bus lock -/

/-- C11. With buffer capacity 64, each multi-unit operation whose byte count exceeds
the capacity (`I2CdevreadBytes` with `length > 64`, `I2CdevwriteBytes` with
`length + 1 > 64`, `I2CdevreadWords` with `2 * length > 64`, `I2CdevwriteWords` with
`2 * length + 1 > 64`, the sums taken without wrap-around) returns `FALSE` and
leaves the bus untouched: no event is added to the trace and no transfer outcome
is consumed. -/
theorem size_guard_no_bus (s : ScriptBus) (devAddr regAddr t lRB lWB lRW lWW : Nat)
    (data : Mem)
    (hRB : lRB > 64) (hWB : lWB + 1 > 64) (hRW : 2 * lRW > 64) (hWW : 2 * lWW + 1 > 64) :
    ((I2CdevreadBytes scriptHal s devAddr regAddr lRB data t).1 = FALSE ∧
      (I2CdevreadBytes scriptHal s devAddr regAddr lRB data t).2.2.bus.trace = s.bus.trace ∧
      (I2CdevreadBytes scriptHal s devAddr regAddr lRB data t).2.2.script = s.script) ∧
    ((I2CdevwriteBytes scriptHal s devAddr regAddr lWB data).1 = FALSE ∧
      (I2CdevwriteBytes scriptHal s devAddr regAddr lWB data).2.bus.trace = s.bus.trace ∧
      (I2CdevwriteBytes scriptHal s devAddr regAddr lWB data).2.script = s.script) ∧
    ((I2CdevreadWords scriptHal s devAddr regAddr lRW data t).1 = FALSE ∧
      (I2CdevreadWords scriptHal s devAddr regAddr lRW data t).2.2.bus.trace = s.bus.trace ∧
      (I2CdevreadWords scriptHal s devAddr regAddr lRW data t).2.2.script = s.script) ∧
    ((I2CdevwriteWords scriptHal s devAddr regAddr lWW data).1 = FALSE ∧
      (I2CdevwriteWords scriptHal s devAddr regAddr lWW data).2.bus.trace = s.bus.trace ∧
      (I2CdevwriteWords scriptHal s devAddr regAddr lWW data).2.script = s.script) := by
  have g1 : lRB > I2CDEV_BUFFER_LENGTH := by unfold I2CDEV_BUFFER_LENGTH; omega
  have g2 : lWB + 1 > I2CDEV_BUFFER_LENGTH := by unfold I2CDEV_BUFFER_LENGTH; omega
  have g3 : lRW * 2 > I2CDEV_BUFFER_LENGTH := by unfold I2CDEV_BUFFER_LENGTH; omega
  have g4 : lWW * 2 + 1 > I2CDEV_BUFFER_LENGTH := by unfold I2CDEV_BUFFER_LENGTH; omega
  refine ⟨?_, ?_, ?_, ?_⟩
  · unfold I2CdevreadBytes
    rw [if_pos g1]
    exact ⟨rfl, rfl, rfl⟩
  · unfold I2CdevwriteBytes
    rw [if_pos g2]
    exact ⟨rfl, rfl, rfl⟩
  · unfold I2CdevreadWords
    rw [if_pos g3]
    exact ⟨rfl, rfl, rfl⟩
  · unfold I2CdevwriteWords
    rw [if_pos g4]
    exact ⟨rfl, rfl, rfl⟩

/-- Witness for C11: lengths whose byte count would wrap to a small value in 8 bits
(`255 + 1`, `2 * 128`, `2 * 128 + 1`) are rejected all the same. -/
theorem size_guard_no_bus_witness :
    ((I2CdevreadBytes scriptHal ⟨busOf 5 [], []⟩ 0x68 5 65 (fun _ => 0) 10).1 = FALSE ∧
      (I2CdevreadBytes scriptHal ⟨busOf 5 [], []⟩ 0x68 5 65 (fun _ => 0) 10).2.2.bus.trace
        = (busOf 5 []).trace ∧
      (I2CdevreadBytes scriptHal ⟨busOf 5 [], []⟩ 0x68 5 65 (fun _ => 0) 10).2.2.script = []) ∧
    ((I2CdevwriteBytes scriptHal ⟨busOf 5 [], []⟩ 0x68 5 255 (fun _ => 0)).1 = FALSE ∧
      (I2CdevwriteBytes scriptHal ⟨busOf 5 [], []⟩ 0x68 5 255 (fun _ => 0)).2.bus.trace
        = (busOf 5 []).trace ∧
      (I2CdevwriteBytes scriptHal ⟨busOf 5 [], []⟩ 0x68 5 255 (fun _ => 0)).2.script = []) ∧
    ((I2CdevreadWords scriptHal ⟨busOf 5 [], []⟩ 0x68 5 128 (fun _ => 0) 10).1 = FALSE ∧
      (I2CdevreadWords scriptHal ⟨busOf 5 [], []⟩ 0x68 5 128 (fun _ => 0) 10).2.2.bus.trace
        = (busOf 5 []).trace ∧
      (I2CdevreadWords scriptHal ⟨busOf 5 [], []⟩ 0x68 5 128 (fun _ => 0) 10).2.2.script = []) ∧
    ((I2CdevwriteWords scriptHal ⟨busOf 5 [], []⟩ 0x68 5 128 (fun _ => 0)).1 = FALSE ∧
      (I2CdevwriteWords scriptHal ⟨busOf 5 [], []⟩ 0x68 5 128 (fun _ => 0)).2.bus.trace
        = (busOf 5 []).trace ∧
      (I2CdevwriteWords scriptHal ⟨busOf 5 [], []⟩ 0x68 5 128 (fun _ => 0)).2.script = []) :=
  size_guard_no_bus ⟨busOf 5 [], []⟩ 0x68 5 10 65 255 128 128 (fun _ => 0)
    (by decide) (by decide) (by decide) (by decide)

/-- C12. For each of `I2CdevreadBytes`, `I2CdevreadWords`, `I2CdevwriteBytes` and
`I2CdevwriteWords` called with a length that passes its size guard, and for every
status `msg` the transfer returns, the operation returns `TRUE` if and only if
`msg` is neither `RDY_TIMEOUT` nor `RDY_RESET`; in particular a timeout makes all
four return `FALSE`. -/
theorem result_translation (bus : TestBus) (msg : Int) (rest : List Int)
    (devAddr regAddr t lRB lWB lRW lWW : Nat) (data : Mem)
    (hRB : lRB ≤ 64) (hWB : lWB + 1 ≤ 64) (hRW : 2 * lRW ≤ 64) (hWW : 2 * lWW + 1 ≤ 64) :
    ((I2CdevreadBytes scriptHal ⟨bus, msg :: rest⟩ devAddr regAddr lRB data t).1 = TRUE
      ↔ msg ≠ RDY_TIMEOUT ∧ msg ≠ RDY_RESET) ∧
    ((I2CdevreadWords scriptHal ⟨bus, msg :: rest⟩ devAddr regAddr lRW data t).1 = TRUE
      ↔ msg ≠ RDY_TIMEOUT ∧ msg ≠ RDY_RESET) ∧
    ((I2CdevwriteBytes scriptHal ⟨bus, msg :: rest⟩ devAddr regAddr lWB data).1 = TRUE
      ↔ msg ≠ RDY_TIMEOUT ∧ msg ≠ RDY_RESET) ∧
    ((I2CdevwriteWords scriptHal ⟨bus, msg :: rest⟩ devAddr regAddr lWW data).1 = TRUE
      ↔ msg ≠ RDY_TIMEOUT ∧ msg ≠ RDY_RESET) ∧
    (msg = RDY_TIMEOUT →
      (I2CdevreadBytes scriptHal ⟨bus, msg :: rest⟩ devAddr regAddr lRB data t).1 = FALSE ∧
      (I2CdevreadWords scriptHal ⟨bus, msg :: rest⟩ devAddr regAddr lRW data t).1 = FALSE ∧
      (I2CdevwriteBytes scriptHal ⟨bus, msg :: rest⟩ devAddr regAddr lWB data).1 = FALSE ∧
      (I2CdevwriteWords scriptHal ⟨bus, msg :: rest⟩ devAddr regAddr lWW data).1 = FALSE) := by
  have key : ∀ r : Nat,
      r = (if msg = RDY_TIMEOUT ∨ msg = RDY_RESET then FALSE else TRUE) →
      (r = TRUE ↔ msg ≠ RDY_TIMEOUT ∧ msg ≠ RDY_RESET) := by
    intro r hr
    by_cases hf : msg = RDY_TIMEOUT ∨ msg = RDY_RESET
    · rw [hr, if_pos hf]
      constructor
      · intro h; exact absurd h (by decide)
      · intro h; rcases hf with hf | hf
        · exact absurd hf h.1
        · exact absurd hf h.2
    · rw [hr, if_neg hf]
      constructor
      · intro _; exact ⟨fun h => hf (Or.inl h), fun h => hf (Or.inr h)⟩
      · intro _; rfl
  have e1 := (readBytes_scriptHal ⟨bus, msg :: rest⟩ devAddr regAddr lRB t data hRB).1
  have e2 := (readWords_scriptHal ⟨bus, msg :: rest⟩ devAddr regAddr lRW t data (by omega)).1
  have e3 := (writeBytes_scriptHal ⟨bus, msg :: rest⟩ devAddr regAddr lWB data hWB).1
  have e4 := (writeWords_scriptHal ⟨bus, msg :: rest⟩ devAddr regAddr lWW data (by omega)).1
  refine ⟨key _ e1, key _ e2, key _ e3, key _ e4, ?_⟩
  intro hto
  have hf : (msg :: rest).headD RDY_OK = RDY_TIMEOUT ∨ (msg :: rest).headD RDY_OK = RDY_RESET :=
    Or.inl hto
  rw [e1, e2, e3, e4, if_pos hf]
  exact ⟨rfl, rfl, rfl, rfl⟩

/-- Witness for C12: a simulated timeout at the largest lengths the guards admit. -/
theorem result_translation_witness :
    ((I2CdevreadBytes scriptHal ⟨busOf 5 [], RDY_TIMEOUT :: []⟩ 0x68 5 64 (fun _ => 0) 10).1
        = TRUE ↔ RDY_TIMEOUT ≠ RDY_TIMEOUT ∧ RDY_TIMEOUT ≠ RDY_RESET) ∧
    ((I2CdevreadWords scriptHal ⟨busOf 5 [], RDY_TIMEOUT :: []⟩ 0x68 5 32 (fun _ => 0) 10).1
        = TRUE ↔ RDY_TIMEOUT ≠ RDY_TIMEOUT ∧ RDY_TIMEOUT ≠ RDY_RESET) ∧
    ((I2CdevwriteBytes scriptHal ⟨busOf 5 [], RDY_TIMEOUT :: []⟩ 0x68 5 63 (fun _ => 0)).1
        = TRUE ↔ RDY_TIMEOUT ≠ RDY_TIMEOUT ∧ RDY_TIMEOUT ≠ RDY_RESET) ∧
    ((I2CdevwriteWords scriptHal ⟨busOf 5 [], RDY_TIMEOUT :: []⟩ 0x68 5 31 (fun _ => 0)).1
        = TRUE ↔ RDY_TIMEOUT ≠ RDY_TIMEOUT ∧ RDY_TIMEOUT ≠ RDY_RESET) ∧
    (RDY_TIMEOUT = RDY_TIMEOUT →
      (I2CdevreadBytes scriptHal ⟨busOf 5 [], RDY_TIMEOUT :: []⟩ 0x68 5 64 (fun _ => 0) 10).1
        = FALSE ∧
      (I2CdevreadWords scriptHal ⟨busOf 5 [], RDY_TIMEOUT :: []⟩ 0x68 5 32 (fun _ => 0) 10).1
        = FALSE ∧
      (I2CdevwriteBytes scriptHal ⟨busOf 5 [], RDY_TIMEOUT :: []⟩ 0x68 5 63 (fun _ => 0)).1
        = FALSE ∧
      (I2CdevwriteWords scriptHal ⟨busOf 5 [], RDY_TIMEOUT :: []⟩ 0x68 5 31 (fun _ => 0)).1
        = FALSE) :=
  result_translation (busOf 5 []) RDY_TIMEOUT [] 0x68 5 10 64 63 32 31 (fun _ => 0)
    (by decide) (by decide) (by decide) (by decide)

theorem busLocked_after_section (tr : List BusEvent) (devAddr rxbytes : Nat) (tx : List Nat) :
    busLocked (tr ++ [BusEvent.acquire, BusEvent.transfer devAddr tx rxbytes, BusEvent.release])
      = false := by
  simp [busLocked, List.foldl_append]

/-- C13. For each of `I2CdevreadBytes`, `I2CdevreadWords`, `I2CdevwriteBytes` and
`I2CdevwriteWords` called with a length that passes its size guard, and for every
outcome of the transfer (every script, so `RDY_OK`, `RDY_TIMEOUT`, `RDY_RESET` or
any other status), the events the call appends to the bus trace are exactly
acquire, one transfer, release, in that order, and the bus is not held when the
call returns. -/
theorem balanced_bus_lock (s : ScriptBus) (devAddr regAddr t lRB lWB lRW lWW : Nat)
    (data : Mem)
    (hRB : lRB ≤ 64) (hWB : lWB + 1 ≤ 64) (hRW : 2 * lRW ≤ 64) (hWW : 2 * lWW + 1 ≤ 64) :
    ((I2CdevreadBytes scriptHal s devAddr regAddr lRB data t).2.2.bus.trace
        = s.bus.trace ++ [BusEvent.acquire, BusEvent.transfer devAddr [regAddr] lRB,
            BusEvent.release] ∧
      busLocked (I2CdevreadBytes scriptHal s devAddr regAddr lRB data t).2.2.bus.trace
        = false) ∧
    ((I2CdevreadWords scriptHal s devAddr regAddr lRW data t).2.2.bus.trace
        = s.bus.trace ++ [BusEvent.acquire, BusEvent.transfer devAddr [regAddr] (lRW * 2),
            BusEvent.release] ∧
      busLocked (I2CdevreadWords scriptHal s devAddr regAddr lRW data t).2.2.bus.trace
        = false) ∧
    ((I2CdevwriteBytes scriptHal s devAddr regAddr lWB data).2.bus.trace
        = s.bus.trace ++ [BusEvent.acquire,
            BusEvent.transfer devAddr (regAddr :: (List.range lWB).map data) 0,
            BusEvent.release] ∧
      busLocked (I2CdevwriteBytes scriptHal s devAddr regAddr lWB data).2.bus.trace
        = false) ∧
    ((I2CdevwriteWords scriptHal s devAddr regAddr lWW data).2.bus.trace
        = s.bus.trace ++ [BusEvent.acquire,
            BusEvent.transfer devAddr (writeWordsFrame regAddr lWW data) 0,
            BusEvent.release] ∧
      busLocked (I2CdevwriteWords scriptHal s devAddr regAddr lWW data).2.bus.trace
        = false) := by
  have e1 := (readBytes_scriptHal s devAddr regAddr lRB t data hRB).2.1
  have e2 := (readWords_scriptHal s devAddr regAddr lRW t data (by omega)).2.1
  have e3 := (writeBytes_scriptHal s devAddr regAddr lWB data hWB).2.1
  have e4 := (writeWords_scriptHal s devAddr regAddr lWW data (by omega)).2.1
  refine ⟨⟨e1, ?_⟩, ⟨e2, ?_⟩, ⟨e3, ?_⟩, ⟨e4, ?_⟩⟩
  · rw [e1]; exact busLocked_after_section _ _ _ _
  · rw [e2]; exact busLocked_after_section _ _ _ _
  · rw [e3]; exact busLocked_after_section _ _ _ _
  · rw [e4]; exact busLocked_after_section _ _ _ _

/-- Witness for C13: a bus that answers with `RDY_RESET`, starting from an empty
trace. -/
theorem balanced_bus_lock_witness :
    ((I2CdevreadBytes scriptHal ⟨busOf 5 [], [RDY_RESET]⟩ 0x68 5 2 (fun _ => 0) 10).2.2.bus.trace
        = (busOf 5 []).trace ++ [BusEvent.acquire, BusEvent.transfer 0x68 [5] 2,
            BusEvent.release] ∧
      busLocked
        (I2CdevreadBytes scriptHal ⟨busOf 5 [], [RDY_RESET]⟩ 0x68 5 2 (fun _ => 0) 10).2.2.bus.trace
        = false) ∧
    ((I2CdevreadWords scriptHal ⟨busOf 5 [], [RDY_RESET]⟩ 0x68 5 2 (fun _ => 0) 10).2.2.bus.trace
        = (busOf 5 []).trace ++ [BusEvent.acquire, BusEvent.transfer 0x68 [5] (2 * 2),
            BusEvent.release] ∧
      busLocked
        (I2CdevreadWords scriptHal ⟨busOf 5 [], [RDY_RESET]⟩ 0x68 5 2 (fun _ => 0) 10).2.2.bus.trace
        = false) ∧
    ((I2CdevwriteBytes scriptHal ⟨busOf 5 [], [RDY_RESET]⟩ 0x68 5 2 (fun _ => 0)).2.bus.trace
        = (busOf 5 []).trace ++ [BusEvent.acquire,
            BusEvent.transfer 0x68 (5 :: (List.range 2).map (fun _ => 0)) 0,
            BusEvent.release] ∧
      busLocked
        (I2CdevwriteBytes scriptHal ⟨busOf 5 [], [RDY_RESET]⟩ 0x68 5 2 (fun _ => 0)).2.bus.trace
        = false) ∧
    ((I2CdevwriteWords scriptHal ⟨busOf 5 [], [RDY_RESET]⟩ 0x68 5 2 (fun _ => 0)).2.bus.trace
        = (busOf 5 []).trace ++ [BusEvent.acquire,
            BusEvent.transfer 0x68 (writeWordsFrame 5 2 (fun _ => 0)) 0,
            BusEvent.release] ∧
      busLocked
        (I2CdevwriteWords scriptHal ⟨busOf 5 [], [RDY_RESET]⟩ 0x68 5 2 (fun _ => 0)).2.bus.trace
        = false) :=
  balanced_bus_lock ⟨busOf 5 [], [RDY_RESET]⟩ 0x68 5 10 2 2 2 2 (fun _ => 0)
    (by decide) (by decide) (by decide) (by decide)

/-! ## Read failures inside the bit-field operations -/

theorem readByte_scriptHal_of_fail (s : ScriptBus) (devAddr regAddr t : Nat) (buf : Mem)
    (h : (I2CdevreadByte scriptHal s devAddr regAddr buf t).1 = 0) :
    (I2CdevreadByte scriptHal s devAddr regAddr buf t).2.2.bus.trace
      = s.bus.trace ++ [BusEvent.acquire, BusEvent.transfer devAddr [regAddr] 1,
          BusEvent.release] ∧
    (I2CdevreadByte scriptHal s devAddr regAddr buf t).2.2.bus.mem = s.bus.mem := by
  have hc := readBytes_scriptHal s devAddr regAddr 1 t buf (by omega)
  refine ⟨hc.2.1, ?_⟩
  by_cases hf : s.script.headD RDY_OK = RDY_TIMEOUT ∨ s.script.headD RDY_OK = RDY_RESET
  · have hg : ¬ 1 > I2CDEV_BUFFER_LENGTH := by unfold I2CDEV_BUFFER_LENGTH; omega
    unfold I2CdevreadByte I2CdevreadBytes
    rw [if_neg hg]
    dsimp only
    rw [scriptHal_transmit_fail (scriptHal.i2cAcquireBus s) _ _ _ _ _ hf]
    simp only [scriptHal_acquire, scriptHal_release, scriptHal_chprintf]
    generalize s.script.headD RDY_OK = msg at hf
    simp [hf]
  · have h1 := hc.1
    rw [if_neg hf] at h1
    unfold I2CdevreadByte at h
    rw [h1] at h
    exact absurd h (by decide)

theorem readWord_scriptHal_of_fail (s : ScriptBus) (devAddr regAddr t : Nat) (buf : Mem)
    (h : (I2CdevreadWord scriptHal s devAddr regAddr buf t).1 = 0) :
    (I2CdevreadWord scriptHal s devAddr regAddr buf t).2.2.bus.trace
      = s.bus.trace ++ [BusEvent.acquire, BusEvent.transfer devAddr [regAddr] (1 * 2),
          BusEvent.release] ∧
    (I2CdevreadWord scriptHal s devAddr regAddr buf t).2.2.bus.mem = s.bus.mem := by
  have hc := readWords_scriptHal s devAddr regAddr 1 t buf (by omega)
  refine ⟨hc.2.1, ?_⟩
  by_cases hf : s.script.headD RDY_OK = RDY_TIMEOUT ∨ s.script.headD RDY_OK = RDY_RESET
  · have hg : ¬ 1 * 2 > I2CDEV_BUFFER_LENGTH := by unfold I2CDEV_BUFFER_LENGTH; omega
    unfold I2CdevreadWord I2CdevreadWords
    rw [if_neg hg]
    dsimp only
    rw [scriptHal_transmit_fail (scriptHal.i2cAcquireBus s) _ _ _ _ _ hf]
    simp only [scriptHal_acquire, scriptHal_release, scriptHal_chprintf]
    generalize s.script.headD RDY_OK = msg at hf
    simp [hf]
  · have h1 := hc.1
    rw [if_neg hf] at h1
    unfold I2CdevreadWord at h
    rw [h1] at h
    exact absurd h (by decide)

/-- C14. On the scripted test double, for every argument tuple, if the initial
register read inside `I2CdevwriteBits` (state `s`), respectively `I2CdevwriteBitsW`
(state `sW`), reports failure, the operation returns `FALSE`, the only events it
adds to the bus are those of that one read (no write transfer), and every device
register is unchanged. -/
theorem writeBits_abort_on_read_failure (s sW : ScriptBus)
    (devAddr regAddr bitStart length data : Nat)
    (h : (I2CdevreadByte scriptHal s devAddr regAddr (fun _ => 0)
            I2CDEV_DEFAULT_READ_TIMEOUT).1 = 0)
    (hW : (I2CdevreadWord scriptHal sW devAddr regAddr (fun _ => 0)
            I2CDEV_DEFAULT_READ_TIMEOUT).1 = 0) :
    ((I2CdevwriteBits scriptHal s devAddr regAddr bitStart length data).1 = FALSE ∧
      (I2CdevwriteBits scriptHal s devAddr regAddr bitStart length data).2.bus.trace
        = s.bus.trace ++ [BusEvent.acquire, BusEvent.transfer devAddr [regAddr] 1,
            BusEvent.release] ∧
      (I2CdevwriteBits scriptHal s devAddr regAddr bitStart length data).2.bus.mem
        = s.bus.mem) ∧
    ((I2CdevwriteBitsW scriptHal sW devAddr regAddr bitStart length data).1 = FALSE ∧
      (I2CdevwriteBitsW scriptHal sW devAddr regAddr bitStart length data).2.bus.trace
        = sW.bus.trace ++ [BusEvent.acquire, BusEvent.transfer devAddr [regAddr] (1 * 2),
            BusEvent.release] ∧
      (I2CdevwriteBitsW scriptHal sW devAddr regAddr bitStart length data).2.bus.mem
        = sW.bus.mem) := by
  have r8 := readByte_scriptHal_of_fail s devAddr regAddr I2CDEV_DEFAULT_READ_TIMEOUT
    (fun _ => 0) h
  have r16 := readWord_scriptHal_of_fail sW devAddr regAddr I2CDEV_DEFAULT_READ_TIMEOUT
    (fun _ => 0) hW
  constructor
  · unfold I2CdevwriteBits
    simp only [h, ne_eq, not_true_eq_false, if_false]
    exact ⟨trivial, r8.1, r8.2⟩
  · unfold I2CdevwriteBitsW
    simp only [hW, ne_eq, not_true_eq_false, if_false]
    exact ⟨trivial, r16.1, r16.2⟩

/-- Witness for C14: the read times out on registers holding `0xAF 0x96`. -/
theorem writeBits_abort_on_read_failure_witness :
    ((I2CdevwriteBits scriptHal ⟨busOf 5 [0xAF, 0x96], [RDY_TIMEOUT]⟩ 0x68 5 4 3 2).1 = FALSE ∧
      (I2CdevwriteBits scriptHal ⟨busOf 5 [0xAF, 0x96], [RDY_TIMEOUT]⟩ 0x68 5 4 3 2).2.bus.trace
        = (busOf 5 [0xAF, 0x96]).trace ++ [BusEvent.acquire, BusEvent.transfer 0x68 [5] 1,
            BusEvent.release] ∧
      (I2CdevwriteBits scriptHal ⟨busOf 5 [0xAF, 0x96], [RDY_TIMEOUT]⟩ 0x68 5 4 3 2).2.bus.mem
        = (busOf 5 [0xAF, 0x96]).mem) ∧
    ((I2CdevwriteBitsW scriptHal ⟨busOf 5 [0xAF, 0x96], [RDY_RESET]⟩ 0x68 5 4 3 2).1 = FALSE ∧
      (I2CdevwriteBitsW scriptHal ⟨busOf 5 [0xAF, 0x96], [RDY_RESET]⟩ 0x68 5 4 3 2).2.bus.trace
        = (busOf 5 [0xAF, 0x96]).trace ++ [BusEvent.acquire,
            BusEvent.transfer 0x68 [5] (1 * 2), BusEvent.release] ∧
      (I2CdevwriteBitsW scriptHal ⟨busOf 5 [0xAF, 0x96], [RDY_RESET]⟩ 0x68 5 4 3 2).2.bus.mem
        = (busOf 5 [0xAF, 0x96]).mem) :=
  writeBits_abort_on_read_failure ⟨busOf 5 [0xAF, 0x96], [RDY_TIMEOUT]⟩
    ⟨busOf 5 [0xAF, 0x96], [RDY_RESET]⟩ 0x68 5 4 3 2 (by decide) (by decide)

/-- C15, evaluated on the scripted test double with the read timing out and the
write succeeding, register `0xAF`, `I2CdevwriteBit(dev, reg, bitNum = 0, data = 1)`
and register word `0xAF96`, `I2CdevwriteBitW(dev, reg, 0, 1)`: the write transfer is
issued all the same, the call returns `TRUE`, and the register is overwritten with
the bit set in an otherwise zero value. -/
theorem writeBit_ignores_read_failure :
    ((I2CdevreadByte scriptHal ⟨busOf 5 [0xAF], [RDY_TIMEOUT]⟩ 0x68 5 (fun _ => 0)
        I2CDEV_DEFAULT_READ_TIMEOUT).1 = FALSE ∧
      (I2CdevwriteBit scriptHal ⟨busOf 5 [0xAF], [RDY_TIMEOUT]⟩ 0x68 5 0 1).1 = TRUE ∧
      (I2CdevwriteBit scriptHal ⟨busOf 5 [0xAF], [RDY_TIMEOUT]⟩ 0x68 5 0 1).2.bus.trace
        = rmwTrace 0x68 5 1 [0x01] ∧
      (I2CdevwriteBit scriptHal ⟨busOf 5 [0xAF], [RDY_TIMEOUT]⟩ 0x68 5 0 1).2.bus.mem 0x68 5
        = 0x01) ∧
    ((I2CdevreadWord scriptHal ⟨busOf 5 [0xAF, 0x96], [RDY_TIMEOUT]⟩ 0x68 5 (fun _ => 0)
        I2CDEV_DEFAULT_READ_TIMEOUT).1 = FALSE ∧
      (I2CdevwriteBitW scriptHal ⟨busOf 5 [0xAF, 0x96], [RDY_TIMEOUT]⟩ 0x68 5 0 1).1 = TRUE ∧
      (I2CdevwriteBitW scriptHal ⟨busOf 5 [0xAF, 0x96], [RDY_TIMEOUT]⟩ 0x68 5 0 1).2.bus.trace
        = rmwTrace 0x68 5 2 [0x00, 0x01] ∧
      (I2CdevwriteBitW scriptHal ⟨busOf 5 [0xAF, 0x96], [RDY_TIMEOUT]⟩ 0x68 5 0 1).2.bus.word
          0x68 5 = 0x0001) := by
  decide

/-- C16. For every driver, every argument tuple and every prior content `out` of
the caller's output cell, if the underlying register read fails then
`I2CdevreadBits` (state `s`), respectively `I2CdevreadBitsW` (state `sW`), returns
`0` and the output cell still holds `out`. -/
theorem readBits_atomic_on_failure (hal : Hal σ) (s sW : σ)
    (devAddr regAddr bitStart length out t : Nat)
    (h : (I2CdevreadByte hal s devAddr regAddr (fun _ => 0) t).1 = 0)
    (hW : (I2CdevreadWord hal sW devAddr regAddr (fun _ => 0) t).1 = 0) :
    ((I2CdevreadBits hal s devAddr regAddr bitStart length out t).1 = 0 ∧
      (I2CdevreadBits hal s devAddr regAddr bitStart length out t).2.1 = out) ∧
    ((I2CdevreadBitsW hal sW devAddr regAddr bitStart length out t).1 = 0 ∧
      (I2CdevreadBitsW hal sW devAddr regAddr bitStart length out t).2.1 = out) := by
  constructor
  · unfold I2CdevreadBits
    simp only [h, ne_eq, not_true_eq_false, if_false]
    exact ⟨trivial, trivial⟩
  · unfold I2CdevreadBitsW
    simp only [hW, ne_eq, not_true_eq_false, if_false]
    exact ⟨trivial, trivial⟩

/-- Witness for C16: a timed-out and a reset read leave the output cell at `0x55`. -/
theorem readBits_atomic_on_failure_witness :
    ((I2CdevreadBits scriptHal ⟨busOf 5 [0xAF, 0x96], [RDY_TIMEOUT]⟩ 0x68 5 4 3 0x55 10).1 = 0 ∧
      (I2CdevreadBits scriptHal ⟨busOf 5 [0xAF, 0x96], [RDY_TIMEOUT]⟩ 0x68 5 4 3 0x55 10).2.1
        = 0x55) ∧
    ((I2CdevreadBitsW scriptHal ⟨busOf 5 [0xAF, 0x96], [RDY_RESET]⟩ 0x68 5 4 3 0x55 10).1 = 0 ∧
      (I2CdevreadBitsW scriptHal ⟨busOf 5 [0xAF, 0x96], [RDY_RESET]⟩ 0x68 5 4 3 0x55 10).2.1
        = 0x55) :=
  readBits_atomic_on_failure scriptHal ⟨busOf 5 [0xAF, 0x96], [RDY_TIMEOUT]⟩
    ⟨busOf 5 [0xAF, 0x96], [RDY_RESET]⟩ 0x68 5 4 3 0x55 10 (by decide) (by decide)

/-! ## Field extraction -/

theorem testBit_field_extract (r bitStart length m j : Nat)
    (hm : ∀ i, m.testBit i = (decide (i < fieldShift bitStart length + length)
      && (fieldMask bitStart length).testBit i)) :
    ((r &&& m) >>> fieldShift bitStart length).testBit j
      = (r / 2 ^ fieldShift bitStart length % 2 ^ length).testBit j := by
  rw [← Nat.shiftRight_eq_div_pow]
  simp only [Nat.testBit_shiftRight, Nat.testBit_and, Nat.testBit_mod_two_pow, hm,
    testBit_fieldMask]
  by_cases hj : j < length
  · have h8 : fieldShift bitStart length + j < fieldShift bitStart length + length := by omega
    simp [hj, h8]
  · simp [hj]

theorem field_extract_byte (r bitStart length : Nat) (hs : bitStart ≤ 7)
    (h2 : length ≤ bitStart + 1) :
    (r &&& (fieldMask bitStart length % 256)) >>> fieldShift bitStart length
      = r / 2 ^ (bitStart + 1 - length) % 2 ^ length := by
  apply Nat.eq_of_testBit_eq
  intro j
  apply testBit_field_extract
  intro i
  rw [testBit_mod_256]
  have hsh : fieldShift bitStart length + length ≤ 8 := by unfold fieldShift; omega
  by_cases hi : i < 8
  · by_cases hi2 : i < fieldShift bitStart length + length
    · simp [hi, hi2]
    · have : ¬ (i - fieldShift bitStart length < length) := by omega
      simp [hi, hi2, testBit_fieldMask, this]
  · have hi2 : ¬ i < fieldShift bitStart length + length := by omega
    simp [hi, hi2]

theorem field_extract_word (r bitStart length : Nat) (hs : bitStart ≤ 15)
    (h2 : length ≤ bitStart + 1) :
    (r &&& (fieldMask bitStart length % 65536)) >>> fieldShift bitStart length
      = r / 2 ^ (bitStart + 1 - length) % 2 ^ length := by
  apply Nat.eq_of_testBit_eq
  intro j
  apply testBit_field_extract
  intro i
  rw [testBit_mod_65536]
  have hsh : fieldShift bitStart length + length ≤ 16 := by unfold fieldShift; omega
  by_cases hi : i < 16
  · by_cases hi2 : i < fieldShift bitStart length + length
    · simp [hi, hi2]
    · have : ¬ (i - fieldShift bitStart length < length) := by omega
      simp [hi, hi2, testBit_fieldMask, this]
  · have hi2 : ¬ i < fieldShift bitStart length + length := by omega
    simp [hi, hi2]

/-- C17. For every driver, when the register read succeeds with value `r`, for every
`bitStart ≤ 7` (`I2CdevreadBits`) or `bitStart ≤ 15` (`I2CdevreadBitsW`) and every
`length` with `1 ≤ length ≤ bitStart + 1`, the output cell holds
`r / 2 ^ (bitStart - length + 1) % 2 ^ length`, the right-aligned bits
`[bitStart - length + 1, bitStart]` of `r`; the full-width fields `length = 8` and
`length = 16` are included. -/
theorem readBits_field_value (hal : Hal σ) (s sW : σ) (devAddr regAddr out t : Nat)
    (bitStart length bitStartW lengthW : Nat)
    (hok : (I2CdevreadByte hal s devAddr regAddr (fun _ => 0) t).1 ≠ 0)
    (hs : bitStart ≤ 7) (h1 : 1 ≤ length) (h2 : length ≤ bitStart + 1)
    (hokW : (I2CdevreadWord hal sW devAddr regAddr (fun _ => 0) t).1 ≠ 0)
    (hsW : bitStartW ≤ 15) (h1W : 1 ≤ lengthW) (h2W : lengthW ≤ bitStartW + 1) :
    (I2CdevreadBits hal s devAddr regAddr bitStart length out t).2.1
      = (I2CdevreadByte hal s devAddr regAddr (fun _ => 0) t).2.1 0
          / 2 ^ (bitStart + 1 - length) % 2 ^ length ∧
    (I2CdevreadBitsW hal sW devAddr regAddr bitStartW lengthW out t).2.1
      = (I2CdevreadWord hal sW devAddr regAddr (fun _ => 0) t).2.1 0
          / 2 ^ (bitStartW + 1 - lengthW) % 2 ^ lengthW := by
  have _ := h1
  have _ := h1W
  constructor
  · unfold I2CdevreadBits
    simp only [hok, ne_eq, not_false_eq_true, if_true]
    exact field_extract_byte _ _ _ hs h2
  · unfold I2CdevreadBitsW
    simp only [hokW, ne_eq, not_false_eq_true, if_true]
    exact field_extract_word _ _ _ hsW h2W

/-- Witness for C17: the full-width fields of the register byte `0xAF` and of the
register word `0xAF96`. -/
theorem readBits_field_value_witness :
    (I2CdevreadBits testHal (busOf 5 [0xAF, 0x96]) 0x68 5 7 8 0 10).2.1
      = (I2CdevreadByte testHal (busOf 5 [0xAF, 0x96]) 0x68 5 (fun _ => 0) 10).2.1 0
          / 2 ^ (7 + 1 - 8) % 2 ^ 8 ∧
    (I2CdevreadBitsW testHal (busOf 5 [0xAF, 0x96]) 0x68 5 15 16 0 10).2.1
      = (I2CdevreadWord testHal (busOf 5 [0xAF, 0x96]) 0x68 5 (fun _ => 0) 10).2.1 0
          / 2 ^ (15 + 1 - 16) % 2 ^ 16 :=
  readBits_field_value testHal (busOf 5 [0xAF, 0x96]) (busOf 5 [0xAF, 0x96]) 0x68 5 0 10
    7 8 15 16 (by decide) (by decide) (by decide) (by decide)
    (by decide) (by decide) (by decide) (by decide)

/-! ## Single-bit writers -/

theorem writeBit_testHal (s : TestBus) (devAddr regAddr bitNum data : Nat) :
    I2CdevwriteBit testHal s devAddr regAddr bitNum data
      = (TRUE,
         ⟨Function.update s.mem devAddr (Function.update (s.mem devAddr) regAddr
            (writeBitByte (s.mem devAddr regAddr) bitNum data)),
          s.trace ++ rmwTrace devAddr regAddr 1
            [writeBitByte (s.mem devAddr regAddr) bitNum data], s.diag⟩) := by
  unfold I2CdevwriteBit
  simp [readByte_testHal, writeByte_testHal, writeBitByte, rmwTrace]

theorem writeBitW_testHal (s : TestBus) (devAddr regAddr bitNum data : Nat) :
    I2CdevwriteBitW testHal s devAddr regAddr bitNum data
      = I2CdevwriteWord testHal
          ⟨s.mem, s.trace ++ [BusEvent.acquire, BusEvent.transfer devAddr [regAddr] 2,
            BusEvent.release], s.diag⟩
          devAddr regAddr
          (writeBitWWord (((s.mem devAddr regAddr <<< 8) + s.mem devAddr (regAddr + 1)) % 65536)
            bitNum data) := by
  unfold I2CdevwriteBitW
  simp [readWord_testHal, writeBitWWord]

theorem testBit_set_or_clear (x bitNum data k : Nat) (hn : bitNum < 32) (hk : k < 32) :
    (if data ≠ 0 then x ||| (1 <<< bitNum) else x &&& bitNot32 (1 <<< bitNum)).testBit k
      = (if k = bitNum then decide (data ≠ 0) else x.testBit k) := by
  have hp : 1 <<< bitNum < 2 ^ 32 := by
    rw [Nat.one_shiftLeft]
    exact Nat.pow_lt_pow_right (by norm_num) hn
  by_cases hd : data ≠ 0
  · rw [if_pos hd, Nat.testBit_or, Nat.one_shiftLeft, Nat.testBit_two_pow]
    by_cases hkn : k = bitNum
    · simp [hkn, hd]
    · have : ¬ bitNum = k := fun h => hkn h.symm
      simp [hkn, this]
  · rw [if_neg hd, Nat.testBit_and, testBit_bitNot32 _ _ hp, Nat.one_shiftLeft,
      Nat.testBit_two_pow]
    by_cases hkn : k = bitNum
    · simp [hkn, hd]
    · have : ¬ bitNum = k := fun h => hkn h.symm
      simp [hkn, this, hk]

theorem testBit_writeBitByte (b bitNum data k : Nat) (hb : b < 256) (hn : bitNum ≤ 7) :
    (writeBitByte b bitNum data).testBit k
      = (if k = bitNum then decide (data ≠ 0) else b.testBit k) := by
  unfold writeBitByte
  rw [testBit_mod_256]
  by_cases hk : k < 8
  · rw [testBit_set_or_clear _ _ _ _ (by omega) (by omega)]
    simp [hk]
  · have hne : ¬ k = bitNum := by omega
    have hz : b.testBit k = false :=
      Nat.testBit_lt_two_pow (lt_of_lt_of_le hb (by
        have : (256 : Nat) = 2 ^ 8 := by norm_num
        rw [this]
        exact Nat.pow_le_pow_right (by norm_num) (Nat.le_of_not_lt hk)))
    simp [hk, hne, hz]

theorem testBit_writeBitWWord (w bitNum data k : Nat) (hw : w < 65536) (hn : bitNum ≤ 15) :
    (writeBitWWord w bitNum data).testBit k
      = (if k = bitNum then decide (data ≠ 0) else w.testBit k) := by
  unfold writeBitWWord
  rw [testBit_mod_65536]
  by_cases hk : k < 16
  · rw [testBit_set_or_clear _ _ _ _ (by omega) (by omega)]
    simp [hk]
  · have hne : ¬ k = bitNum := by omega
    have hz : w.testBit k = false :=
      Nat.testBit_lt_two_pow (lt_of_lt_of_le hw (by
        have : (65536 : Nat) = 2 ^ 16 := by norm_num
        rw [this]
        exact Nat.pow_le_pow_right (by norm_num) (Nat.le_of_not_lt hk)))
    simp [hk, hne, hz]

/-- C18. On the test double (every transfer succeeding), for every prior register
value, every `bitNum ≤ 7` (`I2CdevwriteBit`, state `s`) or `bitNum ≤ 15`
(`I2CdevwriteBitW`, state `sW`) and every data, the operation reads the register
once and writes one value back, whose bit `bitNum` is `1` if `data ≠ 0` and `0` if
`data = 0`, and whose every other bit is the corresponding bit of the prior
value. -/
theorem writeBit_sets_one_bit (s sW : TestBus) (devAddr regAddr bitNum bitNumW data : Nat)
    (hb : s.mem devAddr regAddr < 256) (hn : bitNum ≤ 7)
    (hhi : sW.mem devAddr regAddr < 256) (hlo : sW.mem devAddr (regAddr + 1) < 256)
    (hnW : bitNumW ≤ 15) :
    (∃ written,
      (I2CdevwriteBit testHal s devAddr regAddr bitNum data).1 = TRUE ∧
      (I2CdevwriteBit testHal s devAddr regAddr bitNum data).2.trace
        = s.trace ++ rmwTrace devAddr regAddr 1 [written] ∧
      (I2CdevwriteBit testHal s devAddr regAddr bitNum data).2.mem devAddr regAddr = written ∧
      ∀ k, written.testBit k
        = (if k = bitNum then decide (data ≠ 0) else (s.mem devAddr regAddr).testBit k)) ∧
    (∃ written,
      (I2CdevwriteBitW testHal sW devAddr regAddr bitNumW data).1 = TRUE ∧
      (I2CdevwriteBitW testHal sW devAddr regAddr bitNumW data).2.trace
        = sW.trace ++ rmwTrace devAddr regAddr 2 [(written >>> 8) &&& 0xff, written &&& 0xff] ∧
      (I2CdevwriteBitW testHal sW devAddr regAddr bitNumW data).2.word devAddr regAddr
        = written ∧
      ∀ k, written.testBit k
        = (if k = bitNumW then decide (data ≠ 0) else (sW.word devAddr regAddr).testBit k)) := by
  constructor
  · refine ⟨writeBitByte (s.mem devAddr regAddr) bitNum data, ?_, ?_, ?_, ?_⟩
    · rw [writeBit_testHal]
    · rw [writeBit_testHal]
    · rw [writeBit_testHal]; simp
    · intro k; exact testBit_writeBitByte _ _ _ _ hb hn
  · have hw : sW.word devAddr regAddr < 65536 := by unfold TestBus.word; omega
    refine ⟨writeBitWWord (sW.word devAddr regAddr) bitNumW data, ?_, ?_, ?_, ?_⟩
    · rw [writeBitW_testHal, writeWord_testHal]
    · rw [writeBitW_testHal, writeWord_testHal, word_of_bytes _ _ hhi hlo]
      simp [rmwTrace, TestBus.word]
    · rw [writeBitW_testHal, writeWord_testHal, word_of_bytes _ _ hhi hlo]
      simp only [TestBus.word, Function.update_same, ne_eq, Nat.succ_ne_self, not_false_eq_true,
        Function.update_noteq, Nat.self_eq_add_right, one_ne_zero]
      apply bytes_of_word
      unfold writeBitWWord
      exact Nat.mod_lt _ (by norm_num)
    · intro k; exact testBit_writeBitWWord _ _ _ _ hw hnW

/-- Witness for C18: setting bit 4 of the register byte `0xAF` (to `0xBF`) and bit 14 of
the register word `0xAF96` (to `0xEF96`). -/
theorem writeBit_sets_one_bit_witness :
    (∃ written,
      (I2CdevwriteBit testHal (busOf 5 [0xAF]) 0x68 5 4 1).1 = TRUE ∧
      (I2CdevwriteBit testHal (busOf 5 [0xAF]) 0x68 5 4 1).2.trace
        = (busOf 5 [0xAF]).trace ++ rmwTrace 0x68 5 1 [written] ∧
      (I2CdevwriteBit testHal (busOf 5 [0xAF]) 0x68 5 4 1).2.mem 0x68 5 = written ∧
      ∀ k, written.testBit k
        = (if k = 4 then decide (1 ≠ 0) else ((busOf 5 [0xAF]).mem 0x68 5).testBit k)) ∧
    (∃ written,
      (I2CdevwriteBitW testHal (busOf 5 [0xAF, 0x96]) 0x68 5 14 1).1 = TRUE ∧
      (I2CdevwriteBitW testHal (busOf 5 [0xAF, 0x96]) 0x68 5 14 1).2.trace
        = (busOf 5 [0xAF, 0x96]).trace
            ++ rmwTrace 0x68 5 2 [(written >>> 8) &&& 0xff, written &&& 0xff] ∧
      (I2CdevwriteBitW testHal (busOf 5 [0xAF, 0x96]) 0x68 5 14 1).2.word 0x68 5 = written ∧
      ∀ k, written.testBit k
        = (if k = 14 then decide (1 ≠ 0)
           else ((busOf 5 [0xAF, 0x96]).word 0x68 5).testBit k)) :=
  writeBit_sets_one_bit (busOf 5 [0xAF]) (busOf 5 [0xAF, 0x96]) 0x68 5 4 14 1
    (by decide) (by decide) (by decide) (by decide) (by decide)

/-! ## Single-word byte order and byte payloads -/

/-- C19. On the test double, for every pair of raw bytes held by the register pair,
`I2CdevreadWords` with length 1 and `I2CdevreadWord` return success and store
`b0 * 256 + b1` in `data[0]`; and for every 16-bit word, `I2CdevwriteWords` with
length 1 and `I2CdevwriteWord` hand the bus exactly the bytes
`[regAddr, w >> 8, w & 0xFF]`. -/
theorem single_word_byte_order (s : TestBus) (devAddr regAddr t : Nat) (data wdata : Mem)
    (h0 : s.mem devAddr regAddr < 256) (h1 : s.mem devAddr (regAddr + 1) < 256)
    (hw : wdata 0 < 65536) :
    ((I2CdevreadWords testHal s devAddr regAddr 1 data t).1 = TRUE ∧
      (I2CdevreadWords testHal s devAddr regAddr 1 data t).2.1 0
        = s.mem devAddr regAddr * 256 + s.mem devAddr (regAddr + 1)) ∧
    ((I2CdevreadWord testHal s devAddr regAddr data t).1 = TRUE ∧
      (I2CdevreadWord testHal s devAddr regAddr data t).2.1 0
        = s.mem devAddr regAddr * 256 + s.mem devAddr (regAddr + 1)) ∧
    (I2CdevwriteWords testHal s devAddr regAddr 1 wdata).2.trace
      = s.trace ++ [BusEvent.acquire,
          BusEvent.transfer devAddr [regAddr, wdata 0 >>> 8, wdata 0 &&& 0xFF] 0,
          BusEvent.release] ∧
    (I2CdevwriteWord testHal s devAddr regAddr (wdata 0)).2.trace
      = s.trace ++ [BusEvent.acquire,
          BusEvent.transfer devAddr [regAddr, wdata 0 >>> 8, wdata 0 &&& 0xFF] 0,
          BusEvent.release] := by
  have hr := readWord_testHal s devAddr regAddr t data
  have hhi : (wdata 0 >>> 8) &&& 0xff = wdata 0 >>> 8 := by
    have h : (0xff : Nat) = 2 ^ 8 - 1 := by norm_num
    rw [h, Nat.and_pow_two_sub_one_eq_mod, Nat.shiftRight_eq_div_pow]
    omega
  have hwr : (I2CdevwriteWords testHal s devAddr regAddr 1 wdata).2.trace
      = s.trace ++ [BusEvent.acquire,
          BusEvent.transfer devAddr [regAddr, wdata 0 >>> 8, wdata 0 &&& 0xFF] 0,
          BusEvent.release] := by
    simp [I2CdevwriteWords, writeWordsFrame, writeWordsSplit, testHal,
      I2CDEV_BUFFER_LENGTH, RDY_OK, RDY_TIMEOUT, RDY_RESET, List.range_succ, hhi]
  refine ⟨?_, ?_, hwr, ?_⟩
  · unfold I2CdevreadWord at hr
    rw [hr]
    exact ⟨rfl, by simp [word_of_bytes _ _ h0 h1]⟩
  · rw [hr]
    exact ⟨rfl, by simp [word_of_bytes _ _ h0 h1]⟩
  · rw [writeWord_testHal]
    simp [hhi]

/-- Witness for C19: raw bytes `0x12 0x34` read as `0x1234`, and `0x1234` is
transmitted as `0x12 0x34` after the register address. -/
theorem single_word_byte_order_witness :
    ((I2CdevreadWords testHal (busOf 5 [0x12, 0x34]) 0x68 5 1 (fun _ => 0) 10).1 = TRUE ∧
      (I2CdevreadWords testHal (busOf 5 [0x12, 0x34]) 0x68 5 1 (fun _ => 0) 10).2.1 0
        = 0x1234) ∧
    ((I2CdevreadWord testHal (busOf 5 [0x12, 0x34]) 0x68 5 (fun _ => 0) 10).1 = TRUE ∧
      (I2CdevreadWord testHal (busOf 5 [0x12, 0x34]) 0x68 5 (fun _ => 0) 10).2.1 0
        = 0x1234) ∧
    (I2CdevwriteWords testHal (busOf 5 [0x12, 0x34]) 0x68 5 1 (fun _ => 0x1234)).2.trace
      = [BusEvent.acquire, BusEvent.transfer 0x68 [5, 0x12, 0x34] 0, BusEvent.release] ∧
    (I2CdevwriteWord testHal (busOf 5 [0x12, 0x34]) 0x68 5 0x1234).2.trace
      = [BusEvent.acquire, BusEvent.transfer 0x68 [5, 0x12, 0x34] 0, BusEvent.release] :=
  single_word_byte_order (busOf 5 [0x12, 0x34]) 0x68 5 10 (fun _ => 0) (fun _ => 0x1234)
    (by decide) (by decide) (by decide)

/-- C20. For every length with `length + 1 ≤ 64`, every input array and every
outcome of the transfer, `I2CdevwriteBytes` makes one transfer whose transmit
sequence has exactly `length + 1` bytes, byte 0 being `regAddr` and byte `1 + i`
being `data[i]` for every `i < length`, with a receive length of 0; and
`I2CdevwriteByte(dev, reg, d)` transmits exactly `[reg, d]`. -/
theorem writeBytes_payload (s : ScriptBus) (devAddr regAddr length d : Nat) (data : Mem)
    (h : length + 1 ≤ 64) :
    (∃ tx : List Nat,
      (I2CdevwriteBytes scriptHal s devAddr regAddr length data).2.bus.trace
        = s.bus.trace ++ [BusEvent.acquire, BusEvent.transfer devAddr tx 0,
            BusEvent.release] ∧
      tx.length = length + 1 ∧
      tx[0]? = some regAddr ∧
      ∀ i, i < length → tx[i + 1]? = some (data i)) ∧
    (I2CdevwriteByte scriptHal s devAddr regAddr d).2.bus.trace
      = s.bus.trace ++ [BusEvent.acquire, BusEvent.transfer devAddr [regAddr, d] 0,
          BusEvent.release] := by
  constructor
  · refine ⟨regAddr :: (List.range length).map data, ?_, ?_, ?_, ?_⟩
    · exact (writeBytes_scriptHal s devAddr regAddr length data h).2.1
    · simp
    · simp
    · intro i hi
      simp [List.getElem?_range hi]
  · have e := (writeBytes_scriptHal s devAddr regAddr 1 (fun _ => d) (by omega)).2.1
    unfold I2CdevwriteByte
    rw [e]
    simp [List.range_succ]

/-- Witness for C20: the largest admitted length, 63 data bytes, on a bus that times
out. -/
theorem writeBytes_payload_witness :
    (∃ tx : List Nat,
      (I2CdevwriteBytes scriptHal ⟨busOf 5 [], [RDY_TIMEOUT]⟩ 0x68 5 63
          (fun i => i + 100)).2.bus.trace
        = (busOf 5 []).trace ++ [BusEvent.acquire, BusEvent.transfer 0x68 tx 0,
            BusEvent.release] ∧
      tx.length = 63 + 1 ∧
      tx[0]? = some 5 ∧
      ∀ i, i < 63 → tx[i + 1]? = some ((fun i => i + 100) i)) ∧
    (I2CdevwriteByte scriptHal ⟨busOf 5 [], [RDY_TIMEOUT]⟩ 0x68 5 0xAB).2.bus.trace
      = (busOf 5 []).trace ++ [BusEvent.acquire, BusEvent.transfer 0x68 [5, 0xAB] 0,
          BusEvent.release] :=
  writeBytes_payload ⟨busOf 5 [], [RDY_TIMEOUT]⟩ 0x68 5 63 0xAB (fun i => i + 100)
    (by decide)

end I2Cdev

namespace I2Cdev

/-! ## The return value of the byte reader -/

/-- C21, evaluated on the scripted test double: a successful `I2CdevreadBytes` of
`length = 2` delivers both bytes but returns `TRUE = 1`, not the count `2`, and a
read that times out returns `FALSE = 0`, not `-1`. -/
theorem readBytes_returns_flag :
    ((I2CdevreadBytes scriptHal ⟨busOf 5 [0x12, 0x34], [RDY_OK]⟩ 0x68 5 2 (fun _ => 0) 10).1 = 1 ∧
      (I2CdevreadBytes scriptHal ⟨busOf 5 [0x12, 0x34], [RDY_OK]⟩ 0x68 5 2 (fun _ => 0) 10).2.1 0
        = 0x12 ∧
      (I2CdevreadBytes scriptHal ⟨busOf 5 [0x12, 0x34], [RDY_OK]⟩ 0x68 5 2 (fun _ => 0) 10).2.1 1
        = 0x34) ∧
    ((I2CdevreadBytes scriptHal ⟨busOf 5 [0x12, 0x34], [RDY_TIMEOUT]⟩ 0x68 5 2
        (fun _ => 0) 10).1 = 0 ∧
      ((I2CdevreadBytes scriptHal ⟨busOf 5 [0x12, 0x34], [RDY_TIMEOUT]⟩ 0x68 5 2
        (fun _ => 0) 10).1 : Int) ≠ -1) := by
  decide

/-! ## Fields in the high byte of a 16-bit register -/

theorem writeBitsWWord_high_field (w bitStart length data : Nat) (hw : w < 65536)
    (h8 : length + 8 ≤ bitStart + 1) :
    writeBitsWWord w bitStart length data = w := by
  apply Nat.eq_of_testBit_eq
  intro j
  rw [testBit_writeBitsWWord]
  have hcond : ¬ (fieldShift bitStart length ≤ j ∧ j - fieldShift bitStart length < length
      ∧ j < 8) := by
    unfold fieldShift; omega
  rw [if_neg hcond]
  by_cases h16 : j < 16
  · simp [h16]
  · have hz : w.testBit j = false :=
      Nat.testBit_lt_two_pow (lt_of_lt_of_le hw (by
        have : (65536 : Nat) = 2 ^ 16 := by norm_num
        rw [this]
        exact Nat.pow_le_pow_right (by norm_num) (Nat.le_of_not_lt h16)))
    simp [h16, hz]

/-- C23. On the test double (every transfer succeeding), for every prior register
word `w`, every `bitStart ≤ 15`, every `length ≥ 1` with
`bitStart - length + 1 ≥ 8` and every data, the 8-bit mask of `I2CdevwriteBitsW` is
`0` and the word it writes back, high byte first, is exactly `w`: the register
pair is left as it was. -/
theorem writeBitsW_high_field_noop (s : TestBus) (devAddr regAddr bitStart length data : Nat)
    (hhi : s.mem devAddr regAddr < 256) (hlo : s.mem devAddr (regAddr + 1) < 256)
    (hs : bitStart ≤ 15) (h1 : 1 ≤ length) (h8 : length + 8 ≤ bitStart + 1) :
    fieldMask bitStart length % 256 = 0 ∧
    (I2CdevwriteBitsW testHal s devAddr regAddr bitStart length data).1 = TRUE ∧
    (I2CdevwriteBitsW testHal s devAddr regAddr bitStart length data).2.trace
      = s.trace ++ rmwTrace devAddr regAddr 2
          [s.mem devAddr regAddr, s.mem devAddr (regAddr + 1)] ∧
    (I2CdevwriteBitsW testHal s devAddr regAddr bitStart length data).2.word devAddr regAddr
      = s.word devAddr regAddr := by
  have _ := hs
  have _ := h1
  have hw : s.word devAddr regAddr < 65536 := by unfold TestBus.word; omega
  have hword := writeBitsWWord_high_field (s.word devAddr regAddr) bitStart length data hw h8
  have hbhi : ((s.word devAddr regAddr) >>> 8) &&& 0xff = s.mem devAddr regAddr := by
    have h : (0xff : Nat) = 2 ^ 8 - 1 := by norm_num
    rw [h, Nat.and_pow_two_sub_one_eq_mod, Nat.shiftRight_eq_div_pow]
    unfold TestBus.word
    omega
  have hblo : (s.word devAddr regAddr) &&& 0xff = s.mem devAddr (regAddr + 1) := by
    have h : (0xff : Nat) = 2 ^ 8 - 1 := by norm_num
    rw [h, Nat.and_pow_two_sub_one_eq_mod]
    unfold TestBus.word
    omega
  refine ⟨?_, ?_, ?_, ?_⟩
  · apply Nat.eq_of_testBit_eq
    intro j
    rw [testBit_mod_256, testBit_fieldMask, Nat.zero_testBit]
    by_cases hj : j < 8
    · have : ¬ fieldShift bitStart length ≤ j := by unfold fieldShift; omega
      simp [this]
    · simp [hj]
  · rw [writeBitsW_testHal, writeWord_testHal]
  · rw [writeBitsW_testHal, writeWord_testHal, word_of_bytes _ _ hhi hlo]
    have hword2 : writeBitsWWord (s.mem devAddr regAddr * 256 + s.mem devAddr (regAddr + 1))
        bitStart length data = s.word devAddr regAddr := hword
    rw [hword2, hbhi, hblo]
    simp [rmwTrace]
  · rw [writeBitsW_testHal, writeWord_testHal, word_of_bytes _ _ hhi hlo]
    have hword2 : writeBitsWWord (s.mem devAddr regAddr * 256 + s.mem devAddr (regAddr + 1))
        bitStart length data = s.word devAddr regAddr := hword
    rw [hword2, hbhi, hblo]
    simp [TestBus.word]

/-- Witness for C23: the field of the source comment, `bitStart = 12`, `length = 3`,
on the register word `0xAF96`. -/
theorem writeBitsW_high_field_noop_witness :
    fieldMask 12 3 % 256 = 0 ∧
    (I2CdevwriteBitsW testHal (busOf 5 [0xAF, 0x96]) 0x68 5 12 3 2).1 = TRUE ∧
    (I2CdevwriteBitsW testHal (busOf 5 [0xAF, 0x96]) 0x68 5 12 3 2).2.trace
      = (busOf 5 [0xAF, 0x96]).trace ++ rmwTrace 0x68 5 2
          [(busOf 5 [0xAF, 0x96]).mem 0x68 5, (busOf 5 [0xAF, 0x96]).mem 0x68 (5 + 1)] ∧
    (I2CdevwriteBitsW testHal (busOf 5 [0xAF, 0x96]) 0x68 5 12 3 2).2.word 0x68 5
      = (busOf 5 [0xAF, 0x96]).word 0x68 5 :=
  writeBitsW_high_field_noop (busOf 5 [0xAF, 0x96]) 0x68 5 12 3 2
    (by decide) (by decide) (by decide) (by decide) (by decide)

end I2Cdev

namespace Helper3DMath

/-! ## Conjugate and integer magnitude -/

/-- C22. For every quaternion `q`, `getConjugate(q)` has the `w` of `q` and the
negated `x`, `y`, `z` of `q`, and conjugating twice gives `q` back.  The source
only reads through its `const` pointer and writes the local `tmp`, so the embedding
takes `q` by value and returns the new quaternion. -/
theorem getConjugate_spec (q : Quaternion) :
    (getConjugate q).w = q.w ∧ (getConjugate q).x = -q.x ∧
    (getConjugate q).y = -q.y ∧ (getConjugate q).z = -q.z ∧
    getConjugate (getConjugate q) = q := by
  refine ⟨rfl, rfl, rfl, rfl, ?_⟩
  cases q
  simp [getConjugate]

theorem wrapInt32_of_range (z : Int) (h0 : -(2 ^ 31) ≤ z) (h1 : z < 2 ^ 31) :
    wrapInt32 z = z := by
  unfold wrapInt32
  omega

theorem sq_le_of_abs_le (a : Int) (h : |a| ≤ 26754) : 0 ≤ a * a ∧ a * a ≤ 715776516 := by
  have h2 := abs_le.mp h
  constructor
  · exact mul_self_nonneg a
  · nlinarith [h2.1, h2.2]

/-- C24. With `int` 32 bits wide, the sum `v.x*v.x + v.y*v.y + v.z*v.z` that
`getMagnitudeVectInt` evaluates in `int` arithmetic equals the exact sum of squares
for every vector whose three components have absolute value at most `26754`; and
the bound is tight: for `v = (26755, 26755, 26755)` the exact sum exceeds
`2 ^ 31 - 1` and the `int` value differs from it. -/
theorem sqMagnitudeVectInt_exact (v : VectorInt16)
    (hx : |v.x| ≤ 26754) (hy : |v.y| ≤ 26754) (hz : |v.z| ≤ 26754) :
    sqMagnitudeVectInt v = v.x * v.x + v.y * v.y + v.z * v.z ∧
    ((26755 : Int) * 26755 + 26755 * 26755 + 26755 * 26755 > 2 ^ 31 - 1 ∧
      sqMagnitudeVectInt ⟨26755, 26755, 26755⟩
        ≠ (26755 : Int) * 26755 + 26755 * 26755 + 26755 * 26755) := by
  constructor
  · obtain ⟨ax0, ax1⟩ := sq_le_of_abs_le v.x hx
    obtain ⟨ay0, ay1⟩ := sq_le_of_abs_le v.y hy
    obtain ⟨az0, az1⟩ := sq_le_of_abs_le v.z hz
    unfold sqMagnitudeVectInt
    generalize v.x * v.x = a at ax0 ax1
    generalize v.y * v.y = b at ay0 ay1
    generalize v.z * v.z = c at az0 az1
    rw [wrapInt32_of_range a (by omega) (by omega), wrapInt32_of_range b (by omega) (by omega),
      wrapInt32_of_range c (by omega) (by omega),
      wrapInt32_of_range (a + b) (by omega) (by omega),
      wrapInt32_of_range (a + b + c) (by omega) (by omega)]
  · constructor
    · norm_num
    · decide

/-- Witness for C24: the largest admitted components, with mixed signs. -/
theorem sqMagnitudeVectInt_exact_witness :
    sqMagnitudeVectInt ⟨26754, -26754, 26754⟩
      = (26754 : Int) * 26754 + (-26754) * (-26754) + 26754 * 26754 ∧
    ((26755 : Int) * 26755 + 26755 * 26755 + 26755 * 26755 > 2 ^ 31 - 1 ∧
      sqMagnitudeVectInt ⟨26755, 26755, 26755⟩
        ≠ (26755 : Int) * 26755 + 26755 * 26755 + 26755 * 26755) :=
  sqMagnitudeVectInt_exact ⟨26754, -26754, 26754⟩ (by decide) (by decide) (by decide)

end Helper3DMath
